import Mathlib

/-!
Shallow embedding of KlayGE's mesh-conversion pipeline
(`KlayGE/Tools/src/Common/MeshConverter.cpp`) and proofs about it.

Conventions used throughout:
* `float` arithmetic is modelled exactly over `ℚ`; machine integers over `ℤ`/`ℕ`
  (with explicit clamping where the C++ clamps).
* C++ `while`/`for` loops whose natural measure is not structural are modelled
  with an explicit fuel argument that dominates the loop measure, so every
  definition is executable; the fuel chosen makes the fuel-0 fallthrough
  coincide with the loop's own exit condition on all inputs of interest.
* `MathLib` routines of this repository that are not part of the given source
  (decompose, slerp, sclerp, dual-quaternion products, ...) are taken as
  parameters, bundled in `MathLibOps`; purely algebraic helpers that the spec
  pins down (clamp, lerp, sign) are defined directly.
-/

/-- Quaternion with rational components, modelling KlayGE's `Quaternion`
(stored as x, y, z, w with w the scalar part). -/
structure Quat where
  x : ℚ
  y : ℚ
  z : ℚ
  w : ℚ
deriving DecidableEq

/-- Componentwise quaternion negation, modelling `-q` in the sign-flip steps. -/
def Quat.neg (q : Quat) : Quat := ⟨-q.x, -q.y, -q.z, -q.w⟩

/-- Scalar multiple of a quaternion, modelling `q * s` (e.g. `diff_dual * scale`). -/
def Quat.smul (q : Quat) (s : ℚ) : Quat := ⟨q.x * s, q.y * s, q.z * s, q.w * s⟩

/-- Componentwise dot product of two quaternions, modelling `MathLib::dot`. -/
def Quat.dot (p q : Quat) : ℚ := p.x * q.x + p.y * q.y + p.z * q.z + p.w * q.w

/-- Squared norm; `q.normSq = 1` states "unit norm" exactly over `ℚ`. -/
def Quat.normSq (q : Quat) : ℚ := q.x ^ 2 + q.y ^ 2 + q.z ^ 2 + q.w ^ 2

/-- Modelling `Quaternion::Identity()`, i.e. (0, 0, 0, 1). -/
def Quat.identity : Quat := ⟨0, 0, 0, 1⟩

/-- The zero quaternion `Quaternion(0, 0, 0, 0)`. -/
def Quat.zero : Quat := ⟨0, 0, 0, 0⟩

/-- Three-component float vector (`float3`), modelled over `ℚ`. -/
structure Float3 where
  x : ℚ
  y : ℚ
  z : ℚ
deriving DecidableEq

/-- Modelled from the spec: `MathLib::clamp` (the spec writes
`clamp((t - t_lower)/(t_upper - t_lower), 0, 1)`); the routine itself is not
part of the given source files. -/
def clampQ (v lo hi : ℚ) : ℚ := max lo (min v hi)

/-- Modelled from the spec: `MathLib::clamp<int32_t>` on integers, used when
quantizing positions (`clamp<int32_t>(..., -32768, 32767)`). -/
def clampZ (v lo hi : ℤ) : ℤ := max lo (min v hi)

/-- Modelled from the spec: `MathLib::lerp` on scalars ("linearly
interpolated", "scalar lerp of scale"); not part of the given source files. -/
def lerpQ (a b t : ℚ) : ℚ := a + (b - a) * t

/-- Modelled from the spec: `MathLib::lerp` on `float3`, applied per axis
("Scale is linearly interpolated per-axis"). -/
def lerp3 (a b : Float3) (t : ℚ) : Float3 := ⟨lerpQ a.x b.x t, lerpQ a.y b.y t, lerpQ a.z b.z t⟩

/-- Modelled from the spec: `MathLib::SignBit`, the `sign(rotation.w)` of the
spec; +0 has sign +1. Not part of the given source files. -/
def SignBit (v : ℚ) : ℚ := if v < 0 then -1 else 1

/-- Truncation toward zero, the semantics of C++ `static_cast<int32_t>` on a
(non-trapping) float value. -/
def ratTrunc (q : ℚ) : ℤ := if 0 ≤ q then ⌊q⌋ else -⌊-q⌋

/-- The `MathLib` routines used by `MeshConverter` that live outside the given
source files and are not pinned down formula-by-formula by the spec
(they involve square roots and trigonometry). Theorems quantify over them;
concrete instantiations are used for evaluation. -/
structure MathLibOps where
  /-- `MathLib::decompose(scale, rot, trans, mat)`: matrix decomposition into
  (scale, rotation quaternion, translation). Per the spec the rotation is a
  unit quaternion. -/
  decompose : (Fin 4 → Fin 4 → ℚ) → Float3 × Quat × Float3
  /-- `MathLib::quat_trans_to_udq(q, t)`: dual part of the unit dual quaternion
  for rotation `q` and translation `t`. -/
  quat_trans_to_udq : Quat → Float3 → Quat
  /-- `MathLib::inverse` on 4x4 matrices. -/
  minverse : (Fin 4 → Fin 4 → ℚ) → (Fin 4 → Fin 4 → ℚ)
  /-- `MathLib::slerp`: spherical linear interpolation of two quaternions. -/
  slerp : Quat → Quat → ℚ → Quat
  /-- `MathLib::sclerp`: screw linear interpolation of two dual quaternions,
  returning (real, dual). -/
  sclerp : Quat → Quat → Quat → Quat → ℚ → Quat × Quat
  /-- `MathLib::inverse` on a dual quaternion (real, dual). -/
  inverseDQ : Quat → Quat → Quat × Quat
  /-- `MathLib::mul_real`: real part of a dual-quaternion product. -/
  mul_real : Quat → Quat → Quat
  /-- `MathLib::mul_dual`: dual part of a dual-quaternion product
  `mul_dual(r1, d1, r2, d2)`. -/
  mul_dual : Quat → Quat → Quat → Quat → Quat

/-- A concrete `MathLibOps` instantiation used to evaluate the embedding on
concrete inputs in witnesses; the claims proved universally hold for it in
particular. -/
def constOps : MathLibOps where
  decompose := fun _ => (⟨1, 1, 1⟩, Quat.identity, ⟨0, 0, 0⟩)
  quat_trans_to_udq := fun _ _ => Quat.zero
  minverse := fun m => m
  slerp := fun q _ _ => q
  sclerp := fun r d _ _ _ => (r, d)
  inverseDQ := fun r d => (r, d)
  mul_real := fun a _ => a
  mul_dual := fun _ d _ _ => d

/-! ### KeyFrameSet and the keyframe compressor (`CompressKeyFrameSet`) -/

/-- KlayGE `KeyFrameSet`: parallel sequences of frame ids and
(bind_real, bind_dual, bind_scale) samples. -/
structure KeyFrameSet where
  frame_id : List ℤ
  bind_real : List Quat
  bind_dual : List Quat
  bind_scale : List ℚ
deriving DecidableEq

/-- The four `erase(begin() + i)` calls of `CompressKeyFrameSet`, which drop
the sample at index `i` from each parallel array. -/
def KeyFrameSet.eraseAt (kf : KeyFrameSet) (i : ℕ) : KeyFrameSet :=
  ⟨kf.frame_id.eraseIdx i, kf.bind_real.eraseIdx i,
   kf.bind_dual.eraseIdx i, kf.bind_scale.eraseIdx i⟩

/-- The tolerance test of `CompressKeyFrameSet` (MeshConverter.cpp:2826-2853):
reconstruct the middle sample from its neighbours by sclerp + scalar lerp,
canonicalize the sign against the real middle sample, form the difference
transform, and compare every component against `THRESHOLD = 1e-3`. -/
def compressTest (ops : MathLibOps) (kf : KeyFrameSet) (base : ℕ) : Bool :=
  let frame0 := kf.frame_id.getD (base + 0) 0
  let frame1 := kf.frame_id.getD (base + 1) 0
  let frame2 := kf.frame_id.getD (base + 2) 0
  let factor : ℚ := ((frame1 - frame0 : ℤ) : ℚ) / ((frame2 - frame0 : ℤ) : ℚ)
  let r0 := kf.bind_real.getD (base + 0) Quat.identity
  let d0 := kf.bind_dual.getD (base + 0) Quat.zero
  let r1 := kf.bind_real.getD (base + 1) Quat.identity
  let d1 := kf.bind_dual.getD (base + 1) Quat.zero
  let r2 := kf.bind_real.getD (base + 2) Quat.identity
  let d2 := kf.bind_dual.getD (base + 2) Quat.zero
  let s0 := kf.bind_scale.getD (base + 0) 1
  let s1 := kf.bind_scale.getD (base + 1) 1
  let s2 := kf.bind_scale.getD (base + 2) 1
  let ip := ops.sclerp r0 d0 r2 d2 factor
  let scale := lerpQ s0 s2 factor
  let ip := if Quat.dot r1 ip.1 < 0 then (ip.1.neg, ip.2.neg) else ip
  let inv := ops.inverseDQ r1 d1
  let diff_dual := ops.mul_dual inv.1 (inv.2.smul scale) ip.1 ip.2
  let diff_real := ops.mul_real inv.1 ip.1
  let diff_scale := scale * s1
  decide (|diff_real.x| < 1 / 1000 ∧ |diff_real.y| < 1 / 1000 ∧
    |diff_real.z| < 1 / 1000 ∧ |diff_real.w - 1| < 1 / 1000 ∧
    |diff_dual.x| < 1 / 1000 ∧ |diff_dual.y| < 1 / 1000 ∧
    |diff_dual.z| < 1 / 1000 ∧ |diff_dual.w| < 1 / 1000 ∧
    |diff_scale - 1| < 1 / 1000)

/-- The `while (base < size - 2)` loop of `CompressKeyFrameSet`, parameterized
by the tolerance test. Fuel dominates the loop measure `size - base` (each
iteration either erases one sample or advances `base`); when fuel reaches 0
the measure is exhausted, `base + 2 < size` is false, and returning `kf`
coincides with the loop exit. -/
def compressGo (test : KeyFrameSet → ℕ → Bool) : ℕ → KeyFrameSet → ℕ → KeyFrameSet
  | 0, kf, _ => kf
  | fuel + 1, kf, base =>
    if base + 2 < kf.frame_id.length then
      if test kf base then
        compressGo test fuel (kf.eraseAt (base + 1)) base
      else
        compressGo test fuel kf (base + 1)
    else
      kf

/-- `MeshConverter::CompressKeyFrameSet` (MeshConverter.cpp:2815-2865). -/
def CompressKeyFrameSet (ops : MathLibOps) (kf : KeyFrameSet) : KeyFrameSet :=
  compressGo (compressTest ops) kf.frame_id.length kf 0

/-! Auxiliary list lemmas about `eraseIdx` at an interior index. -/

theorem head?_eraseIdx_of_pos {α : Type*} (l : List α) (i : ℕ) (hi : 0 < i) :
    (l.eraseIdx i).head? = l.head? := by
  rw [List.head?_eq_getElem?, List.head?_eq_getElem?, List.getElem?_eraseIdx_of_lt l i 0 hi]

theorem getLast?_eraseIdx_of_lt {α : Type*} (l : List α) (i : ℕ) (h : i + 1 < l.length) :
    (l.eraseIdx i).getLast? = l.getLast? := by
  rw [List.getLast?_eq_getElem?, List.getLast?_eq_getElem?]
  rw [List.length_eraseIdx]
  have hi : i < l.length := by omega
  simp only [if_pos hi]
  rw [List.getElem?_eraseIdx_of_ge l i (l.length - 1 - 1) (by omega)]
  congr 1
  omega

theorem length_eraseIdx_of_lt {α : Type*} (l : List α) (i : ℕ) (h : i < l.length) :
    (l.eraseIdx i).length = l.length - 1 := by
  rw [List.length_eraseIdx, if_pos h]

/-- Invariant carried through `compressGo`: for any tolerance test, the heads
and last elements of all four parallel arrays are preserved by the loop,
provided the arrays enter with equal lengths (the function's own
`BOOST_ASSERT`). -/
theorem compressGo_preserves (test : KeyFrameSet → ℕ → Bool) :
    ∀ (fuel : ℕ) (kf : KeyFrameSet) (base : ℕ),
      kf.bind_real.length = kf.frame_id.length →
      kf.bind_dual.length = kf.frame_id.length →
      kf.bind_scale.length = kf.frame_id.length →
      ((compressGo test fuel kf base).frame_id.head? = kf.frame_id.head? ∧
       (compressGo test fuel kf base).bind_real.head? = kf.bind_real.head? ∧
       (compressGo test fuel kf base).bind_dual.head? = kf.bind_dual.head? ∧
       (compressGo test fuel kf base).bind_scale.head? = kf.bind_scale.head?) ∧
      ((compressGo test fuel kf base).frame_id.getLast? = kf.frame_id.getLast? ∧
       (compressGo test fuel kf base).bind_real.getLast? = kf.bind_real.getLast? ∧
       (compressGo test fuel kf base).bind_dual.getLast? = kf.bind_dual.getLast? ∧
       (compressGo test fuel kf base).bind_scale.getLast? = kf.bind_scale.getLast?) := by
  intro fuel
  induction fuel with
  | zero =>
    intro kf base h1 h2 h3
    exact ⟨⟨rfl, rfl, rfl, rfl⟩, ⟨rfl, rfl, rfl, rfl⟩⟩
  | succ n ih =>
    intro kf base h1 h2 h3
    simp only [compressGo]
    by_cases hg : base + 2 < kf.frame_id.length
    · rw [if_pos hg]
      by_cases ht : test kf base
      · rw [if_pos ht]
        have e1 : (kf.eraseAt (base + 1)).bind_real.length =
            (kf.eraseAt (base + 1)).frame_id.length := by
          simp only [KeyFrameSet.eraseAt]
          rw [length_eraseIdx_of_lt _ _ (by omega),
            length_eraseIdx_of_lt _ _ (by omega)]
          omega
        have e2 : (kf.eraseAt (base + 1)).bind_dual.length =
            (kf.eraseAt (base + 1)).frame_id.length := by
          simp only [KeyFrameSet.eraseAt]
          rw [length_eraseIdx_of_lt _ _ (by omega),
            length_eraseIdx_of_lt _ _ (by omega)]
          omega
        have e3 : (kf.eraseAt (base + 1)).bind_scale.length =
            (kf.eraseAt (base + 1)).frame_id.length := by
          simp only [KeyFrameSet.eraseAt]
          rw [length_eraseIdx_of_lt _ _ (by omega),
            length_eraseIdx_of_lt _ _ (by omega)]
          omega
        obtain ⟨⟨a1, a2, a3, a4⟩, b1, b2, b3, b4⟩ := ih (kf.eraseAt (base + 1)) base e1 e2 e3
        refine ⟨⟨?_, ?_, ?_, ?_⟩, ?_, ?_, ?_, ?_⟩
        · exact a1.trans (head?_eraseIdx_of_pos _ _ (by omega))
        · exact a2.trans (head?_eraseIdx_of_pos _ _ (by omega))
        · exact a3.trans (head?_eraseIdx_of_pos _ _ (by omega))
        · exact a4.trans (head?_eraseIdx_of_pos _ _ (by omega))
        · exact b1.trans (getLast?_eraseIdx_of_lt _ _ (by omega))
        · exact b2.trans (getLast?_eraseIdx_of_lt _ _ (by rw [h1]; omega))
        · exact b3.trans (getLast?_eraseIdx_of_lt _ _ (by rw [h2]; omega))
        · exact b4.trans (getLast?_eraseIdx_of_lt _ _ (by rw [h3]; omega))
      · rw [if_neg ht]
        exact ih kf (base + 1) h1 h2 h3
    · rw [if_neg hg]
      exact ⟨⟨rfl, rfl, rfl, rfl⟩, ⟨rfl, rfl, rfl, rfl⟩⟩

/-- C1: for every KeyFrameSet handed to `CompressKeyFrameSet` (with the
parallel arrays of equal length, the function's own `BOOST_ASSERT`), the first
and last samples of all four parallel arrays are never removed, and a set with
fewer than 3 samples is returned completely unchanged. -/
theorem CompressKeyFrameSet_boundaries (ops : MathLibOps) (kf : KeyFrameSet)
    (h1 : kf.bind_real.length = kf.frame_id.length)
    (h2 : kf.bind_dual.length = kf.frame_id.length)
    (h3 : kf.bind_scale.length = kf.frame_id.length) :
    (((CompressKeyFrameSet ops kf).frame_id.head? = kf.frame_id.head? ∧
      (CompressKeyFrameSet ops kf).bind_real.head? = kf.bind_real.head? ∧
      (CompressKeyFrameSet ops kf).bind_dual.head? = kf.bind_dual.head? ∧
      (CompressKeyFrameSet ops kf).bind_scale.head? = kf.bind_scale.head?) ∧
     ((CompressKeyFrameSet ops kf).frame_id.getLast? = kf.frame_id.getLast? ∧
      (CompressKeyFrameSet ops kf).bind_real.getLast? = kf.bind_real.getLast? ∧
      (CompressKeyFrameSet ops kf).bind_dual.getLast? = kf.bind_dual.getLast? ∧
      (CompressKeyFrameSet ops kf).bind_scale.getLast? = kf.bind_scale.getLast?)) ∧
    (kf.frame_id.length < 3 → CompressKeyFrameSet ops kf = kf) := by
  constructor
  · exact compressGo_preserves (compressTest ops) kf.frame_id.length kf 0 h1 h2 h3
  · intro hlt
    unfold CompressKeyFrameSet
    cases hf : kf.frame_id.length with
    | zero => rfl
    | succ n =>
      simp only [compressGo]
      rw [if_neg (by omega)]

/-- A concrete three-sample KeyFrameSet used to witness `CompressKeyFrameSet`
theorems. -/
def kfWitness : KeyFrameSet :=
  ⟨[0, 1, 2], [Quat.identity, Quat.identity, Quat.identity],
   [Quat.zero, Quat.zero, Quat.zero], [1, 1, 1]⟩

/-- Witness for C1 at a concrete three-sample input. -/
theorem CompressKeyFrameSet_boundaries_witness :
    kfWitness.bind_real.length = kfWitness.frame_id.length ∧
    (CompressKeyFrameSet constOps kfWitness).frame_id.head? = kfWitness.frame_id.head? ∧
    (CompressKeyFrameSet constOps kfWitness).frame_id.getLast? = kfWitness.frame_id.getLast? :=
  ⟨rfl, (CompressKeyFrameSet_boundaries constOps kfWitness rfl rfl rfl).1.1.1,
    (CompressKeyFrameSet_boundaries constOps kfWitness rfl rfl rfl).1.2.1⟩

/-! ### GetInterpTime (MeshConverter.cpp:93-134) -/

/-- The scan loop of `GetInterpTime` (`for (i = itime_upper; i < vec_size; ++i)
{ if (vec[i].first >= time) break; }`). Fuel dominates `vec.length - i`; when
it runs out, `i ≥ vec.length` and returning `i` coincides with the loop exit. -/
def scanFromGo {α : Type*} (vec : List (ℚ × α)) (time : ℚ) : ℕ → ℕ → ℕ
  | 0, i => i
  | fuel + 1, i =>
    if h : i < vec.length then
      if time ≤ (vec.get ⟨i, h⟩).1 then i else scanFromGo vec time fuel (i + 1)
    else i

/-- The exit value of the scan loop of `GetInterpTime` when entered at `start`. -/
def scanFrom {α : Type*} (vec : List (ℚ × α)) (time : ℚ) (start : ℕ) : ℕ :=
  scanFromGo vec time (vec.length - start) start

/-- `GetInterpTime` (MeshConverter.cpp:93-134): returns (interpolation
fraction, lower bracket index, upper bracket index); `itime_upper` enters as
the caller's cursor hint from the previous call. -/
def GetInterpTime {α : Type*} [Inhabited α] (vec : List (ℚ × α)) (time : ℚ)
    (itime_upper : ℕ) : ℚ × ℕ × ℕ :=
  if vec.length = 1 then (0, 0, 0)
  else
    let i := scanFrom vec time itime_upper
    let p : ℕ × ℕ :=
      if i = 0 then (0, 1)
      else if vec.length - 1 ≤ i then (vec.length - 2, vec.length - 1)
      else (i - 1, i)
    let tl := (vec.getD p.1 default).1
    let tu := (vec.getD p.2 default).1
    let diff := tu - tl
    (clampQ (if diff = 0 then 0 else (time - tl) / diff) 0 1, p.1, p.2)

theorem scanFrom_of_ge {α : Type*} (vec : List (ℚ × α)) (time : ℚ) (s : ℕ)
    (h : vec.length ≤ s) : scanFrom vec time s = s := by
  unfold scanFrom
  rw [Nat.sub_eq_zero_of_le h]
  rfl

theorem scanFrom_stop {α : Type*} (vec : List (ℚ × α)) (time : ℚ) (s : ℕ)
    (h : s < vec.length) (ht : time ≤ (vec.get ⟨s, h⟩).1) :
    scanFrom vec time s = s := by
  unfold scanFrom
  have : vec.length - s = (vec.length - (s + 1)) + 1 := by omega
  rw [this]
  simp only [scanFromGo, dif_pos h, if_pos ht]

theorem scanFrom_step {α : Type*} (vec : List (ℚ × α)) (time : ℚ) (s : ℕ)
    (h : s < vec.length) (ht : ¬ time ≤ (vec.get ⟨s, h⟩).1) :
    scanFrom vec time s = scanFrom vec time (s + 1) := by
  unfold scanFrom
  have : vec.length - s = (vec.length - (s + 1)) + 1 := by omega
  rw [this]
  simp only [scanFromGo, dif_pos h, if_neg ht]

theorem scanFrom_ge {α : Type*} (vec : List (ℚ × α)) (time : ℚ) :
    ∀ (s : ℕ), s ≤ scanFrom vec time s := by
  suffices H : ∀ (k s : ℕ), vec.length - s ≤ k → s ≤ scanFrom vec time s by
    intro s
    exact H vec.length s (by omega)
  intro k
  induction k with
  | zero =>
    intro s hs
    rw [scanFrom_of_ge vec time s (by omega)]
  | succ k ih =>
    intro s hs
    by_cases h : s < vec.length
    · by_cases ht : time ≤ (vec.get ⟨s, h⟩).1
      · rw [scanFrom_stop vec time s h ht]
      · rw [scanFrom_step vec time s h ht]
        exact le_trans (by omega) (ih (s + 1) (by omega))
    · rw [scanFrom_of_ge vec time s (by omega)]

theorem scanFrom_le {α : Type*} (vec : List (ℚ × α)) (time : ℚ) :
    ∀ (s : ℕ), s ≤ vec.length → scanFrom vec time s ≤ vec.length := by
  suffices H : ∀ (k s : ℕ), vec.length - s ≤ k → s ≤ vec.length →
      scanFrom vec time s ≤ vec.length by
    intro s hs
    exact H vec.length s (by omega) hs
  intro k
  induction k with
  | zero =>
    intro s hs hsl
    rw [scanFrom_of_ge vec time s (by omega)]
    omega
  | succ k ih =>
    intro s hs hsl
    by_cases h : s < vec.length
    · by_cases ht : time ≤ (vec.get ⟨s, h⟩).1
      · rw [scanFrom_stop vec time s h ht]
        omega
      · rw [scanFrom_step vec time s h ht]
        exact ih (s + 1) (by omega) (by omega)
    · rw [scanFrom_of_ge vec time s (by omega)]
      omega

theorem scanFrom_found {α : Type*} (vec : List (ℚ × α)) (time : ℚ) :
    ∀ (s : ℕ) (hr : scanFrom vec time s < vec.length),
      time ≤ (vec.get ⟨scanFrom vec time s, hr⟩).1 := by
  suffices H : ∀ (k s : ℕ), vec.length - s ≤ k →
      ∀ (hr : scanFrom vec time s < vec.length),
        time ≤ (vec.get ⟨scanFrom vec time s, hr⟩).1 by
    intro s
    exact H vec.length s (by omega)
  intro k
  induction k with
  | zero =>
    intro s hs hr
    rw [scanFrom_of_ge vec time s (by omega)] at hr
    omega
  | succ k ih =>
    intro s hs
    by_cases h : s < vec.length
    · by_cases ht : time ≤ (vec.get ⟨s, h⟩).1
      · intro hr
        have he := scanFrom_stop vec time s h ht
        revert hr
        rw [he]
        intro hr
        exact ht
      · intro hr
        have he := scanFrom_step vec time s h ht
        revert hr
        rw [he]
        intro hr
        exact ih (s + 1) (by omega) hr
    · intro hr
      rw [scanFrom_of_ge vec time s (by omega)] at hr
      omega

theorem scanFrom_below {α : Type*} (vec : List (ℚ × α)) (time : ℚ) :
    ∀ (s j : ℕ) (hj : j < vec.length), s ≤ j → j < scanFrom vec time s →
      (vec.get ⟨j, hj⟩).1 < time := by
  suffices H : ∀ (k s : ℕ), vec.length - s ≤ k →
      ∀ (j : ℕ) (hj : j < vec.length), s ≤ j → j < scanFrom vec time s →
        (vec.get ⟨j, hj⟩).1 < time by
    intro s
    exact H vec.length s (by omega)
  intro k
  induction k with
  | zero =>
    intro s hs j hj hsj hjr
    rw [scanFrom_of_ge vec time s (by omega)] at hjr
    omega
  | succ k ih =>
    intro s hs j hj hsj hjr
    by_cases h : s < vec.length
    · by_cases ht : time ≤ (vec.get ⟨s, h⟩).1
      · rw [scanFrom_stop vec time s h ht] at hjr
        omega
      · rw [scanFrom_step vec time s h ht] at hjr
        by_cases hje : j = s
        · subst hje
          exact lt_of_not_le ht
        · exact ih (s + 1) (by omega) j hj (by omega) hjr
    · rw [scanFrom_of_ge vec time s (by omega)] at hjr
      omega

theorem scanFrom_hint_le {α : Type*} (vec : List (ℚ × α)) (time : ℚ) :
    ∀ (s : ℕ), s ≤ scanFrom vec time 0 → scanFrom vec time s = scanFrom vec time 0 := by
  suffices H : ∀ (k s : ℕ), scanFrom vec time 0 - s ≤ k → s ≤ scanFrom vec time 0 →
      scanFrom vec time s = scanFrom vec time 0 by
    intro s hs
    exact H (scanFrom vec time 0) s (by omega) hs
  intro k
  induction k with
  | zero =>
    intro s hs hle
    have hseq : s = scanFrom vec time 0 := by omega
    rw [hseq]
    by_cases hm : scanFrom vec time 0 < vec.length
    · exact scanFrom_stop vec time _ hm (scanFrom_found vec time 0 hm)
    · exact scanFrom_of_ge vec time _ (by omega)
  | succ k ih =>
    intro s hs hle
    by_cases heq : s = scanFrom vec time 0
    · rw [heq]
      by_cases hm : scanFrom vec time 0 < vec.length
      · exact scanFrom_stop vec time _ hm (scanFrom_found vec time 0 hm)
      · exact scanFrom_of_ge vec time _ (by omega)
    · have hlt : s < scanFrom vec time 0 := by omega
      have hslen : s < vec.length :=
        lt_of_lt_of_le hlt (scanFrom_le vec time 0 (by omega))
      have hbelow := scanFrom_below vec time 0 s hslen (by omega) hlt
      rw [scanFrom_step vec time s hslen (not_le_of_lt hbelow)]
      exact ih (s + 1) (by omega) (by omega)

/-- C8: `GetInterpTime` on a non-empty track: a single-sample track yields
fraction 0 with both bracket indices 0; with a strictly increasing track, a
query at or past the last sample brackets with the last two entries (for any
cursor hint); the fraction is `clamp((t - t_lower)/(t_upper - t_lower), 0, 1)`
with a zero-length bracket giving 0; and the scan that starts at the caller's
cursor hint agrees with a scan from the start whenever the hint has not
overshot the break position. -/
theorem GetInterpTime_spec {α : Type*} [Inhabited α] (vec : List (ℚ × α))
    (time : ℚ) (hint : ℕ) :
    (vec.length = 1 → GetInterpTime vec time hint = (0, 0, 0)) ∧
    (2 ≤ vec.length → vec.Pairwise (fun a b => a.1 < b.1) →
      (vec.getD (vec.length - 1) default).1 ≤ time →
      (GetInterpTime vec time hint).2 = (vec.length - 2, vec.length - 1)) ∧
    (vec.length ≠ 1 →
      (GetInterpTime vec time hint).1 =
        (let tl := (vec.getD (GetInterpTime vec time hint).2.1 default).1
         let tu := (vec.getD (GetInterpTime vec time hint).2.2 default).1
         if tu - tl = 0 then 0 else clampQ ((time - tl) / (tu - tl)) 0 1)) ∧
    (hint ≤ scanFrom vec time 0 →
      GetInterpTime vec time hint = GetInterpTime vec time 0) := by
  refine ⟨?_, ?_, ?_, ?_⟩
  · intro h1
    simp only [GetInterpTime, if_pos h1]
  · intro h2 hsort hlast
    have hne : vec.length ≠ 1 := by omega
    have hr : vec.length - 1 ≤ scanFrom vec time hint := by
      by_contra hcon
      push_neg at hcon
      have hrlen : scanFrom vec time hint < vec.length := by omega
      have hfound := scanFrom_found vec time hint hrlen
      have hgetlt := (List.pairwise_iff_get.mp hsort)
        ⟨scanFrom vec time hint, hrlen⟩ ⟨vec.length - 1, by omega⟩ (by simp; omega)
      rw [List.getD_eq_getElem vec default (by omega : vec.length - 1 < vec.length)] at hlast
      simp only [List.get_eq_getElem] at hgetlt hfound
      linarith
    have hino : scanFrom vec time hint ≠ 0 := by omega
    simp only [GetInterpTime, if_neg hne, if_neg hino, if_pos hr]
  · intro hne
    simp only [GetInterpTime, if_neg hne]
    by_cases hd : (vec.getD (if scanFrom vec time hint = 0 then (0, 1)
        else if vec.length - 1 ≤ scanFrom vec time hint
          then (vec.length - 2, vec.length - 1)
          else (scanFrom vec time hint - 1, scanFrom vec time hint)).2 default).1 -
        (vec.getD (if scanFrom vec time hint = 0 then (0, 1)
        else if vec.length - 1 ≤ scanFrom vec time hint
          then (vec.length - 2, vec.length - 1)
          else (scanFrom vec time hint - 1, scanFrom vec time hint)).1 default).1 = 0
    · rw [if_pos hd, if_pos hd]
      simp [clampQ]
    · rw [if_neg hd, if_neg hd]
  · intro hh
    simp only [GetInterpTime, scanFrom_hint_le vec time hint hh]

/-- Witness for C8: a concrete strictly increasing three-sample track queried
past its last sample from cursor hint 1 brackets with the last two entries. -/
theorem GetInterpTime_spec_witness :
    (GetInterpTime [((0 : ℚ), (10 : ℚ)), (1, 20), (2, 30)] 5 1).2 = (1, 2) :=
  (GetInterpTime_spec [((0 : ℚ), (10 : ℚ)), (1, 20), (2, 30)] 5 1).2.1
    (by norm_num)
    (by norm_num [List.pairwise_cons])
    (by norm_num)

/-! ### Position quantization (Convert, MeshConverter.cpp:3037-3052) and
dequantization (SaveByAssimp, MeshConverter.cpp:1082-1100), one axis. -/

/-- One axis of the position quantizer in `MeshConverter::Convert`
(lines 3039-3047): normalize against the LOD-0 box (`(p - center) / extent
* 0.5 + 0.5`), scale to the int16 range, convert with `static_cast<int32_t>`
(truncation toward zero), and clamp to `[-32768, 32767]`. -/
def quantizePosAxis (center extent p : ℚ) : ℤ :=
  let pos := (p - center) / extent * (1 / 2) + 1 / 2
  clampZ (ratTrunc (pos * 65535 - 32768)) (-32768) 32767

/-- One axis of the position dequantizer in `MeshConverter::SaveByAssimp`
(lines 1091-1096): `((q + 32768) / 65535 * 2 - 1) * extent + center`. -/
def dequantizePosAxis (center extent : ℚ) (q : ℤ) : ℚ :=
  (((q : ℚ) + 32768) / 65535 * 2 - 1) * extent + center

/-- Counterexample to C3 as stated: the quantizer truncates rather than
rounds, and at center 0, extent 1, `p = 196607/4294901760` (inside the box)
the round-trip error strictly exceeds `extent/32768`. -/
theorem quantize_roundtrip_counterexample :
    (0 : ℚ) - 1 ≤ 196607 / 4294901760 ∧ (196607 : ℚ) / 4294901760 ≤ 0 + 1 ∧
    (1 : ℚ) / 32768 <
      |dequantizePosAxis 0 1 (quantizePosAxis 0 1 (196607 / 4294901760)) -
        196607 / 4294901760| := by
  refine ⟨by norm_num, by norm_num, ?_⟩
  have hq : quantizePosAxis 0 1 (196607 / 4294901760) = 0 := by
    simp only [quantizePosAxis, ratTrunc, clampZ]
    norm_num
  rw [hq]
  simp only [dequantizePosAxis]
  rw [abs_of_neg (by norm_num)]
  norm_num

/-- C3 amended: with the truncating quantizer the code actually implements,
any in-box coordinate round-trips within `2 * extent / 65535` per axis
(strictly), a bound which can marginally exceed the claimed `extent/32768`. -/
theorem quantize_roundtrip_bound (center extent p : ℚ) (hext : 0 < extent)
    (hlo : center - extent ≤ p) (hhi : p ≤ center + extent) :
    |dequantizePosAxis center extent (quantizePosAxis center extent p) - p| <
      2 * extent / 65535 := by
  have hne : extent ≠ 0 := ne_of_gt hext
  set n : ℚ := (p - center) / extent * (1 / 2) + 1 / 2 with hn
  have hr_lo : -1 ≤ (p - center) / extent := by
    rw [le_div_iff₀ hext]
    linarith
  have hr_hi : (p - center) / extent ≤ 1 := by
    rw [div_le_iff₀ hext]
    linarith
  have hn0 : 0 ≤ n := by rw [hn]; linarith
  have hn1 : n ≤ 1 := by rw [hn]; linarith
  set v : ℚ := n * 65535 - 32768 with hv
  have hv_lo : -32768 ≤ v := by rw [hv]; nlinarith
  have hv_hi : v ≤ 32767 := by rw [hv]; nlinarith
  have htr_le : |((ratTrunc v : ℤ) : ℚ) - v| < 1 := by
    unfold ratTrunc
    by_cases h0 : 0 ≤ v
    · rw [if_pos h0, abs_sub_lt_iff]
      constructor
      · have := Int.floor_le v
        linarith
      · have := Int.sub_one_lt_floor v
        linarith
    · rw [if_neg h0, abs_sub_lt_iff]
      push_cast
      constructor
      · have := Int.sub_one_lt_floor (-v)
        linarith
      · have := Int.floor_le (-v)
        linarith
  have htr_lo : (-32768 : ℤ) ≤ ratTrunc v := by
    unfold ratTrunc
    by_cases h0 : 0 ≤ v
    · rw [if_pos h0]
      have : (0 : ℤ) ≤ ⌊v⌋ := Int.floor_nonneg.mpr h0
      omega
    · rw [if_neg h0]
      have : (⌊-v⌋ : ℚ) ≤ -v := Int.floor_le (-v)
      have h2 : (⌊-v⌋ : ℚ) ≤ 32768 := by linarith
      have h3 : ⌊-v⌋ ≤ 32768 := by exact_mod_cast h2
      omega
  have htr_hi : ratTrunc v ≤ (32767 : ℤ) := by
    unfold ratTrunc
    by_cases h0 : 0 ≤ v
    · rw [if_pos h0]
      have : (⌊v⌋ : ℚ) ≤ v := Int.floor_le v
      have h2 : (⌊v⌋ : ℚ) ≤ 32767 := by linarith
      exact_mod_cast h2
    · rw [if_neg h0]
      have : (0 : ℤ) ≤ ⌊-v⌋ := Int.floor_nonneg.mpr (by linarith)
      omega
  have hclamp : quantizePosAxis center extent p = ratTrunc v := by
    simp only [quantizePosAxis, clampZ, ← hn, ← hv]
    omega
  rw [hclamp]
  have hpc : p - center = (2 * n - 1) * extent := by
    have h1 : (p - center) / extent = 2 * n - 1 := by rw [hn]; ring
    rw [← h1, div_mul_cancel₀ _ hne]
  have herr : dequantizePosAxis center extent (ratTrunc v) - p =
      2 * extent * (((ratTrunc v : ℤ) : ℚ) - v) / 65535 := by
    simp only [dequantizePosAxis]
    have hnv : n = (v + 32768) / 65535 := by rw [hv]; ring
    have : p = center + (2 * n - 1) * extent := by linarith
    rw [this, hnv]
    field_simp
    ring
  rw [herr, abs_div, abs_mul, abs_of_pos (show (0 : ℚ) < 2 * extent by linarith),
    abs_of_pos (show (0 : ℚ) < (65535 : ℚ) by norm_num),
    div_lt_div_iff₀ (by norm_num) (by norm_num)]
  nlinarith [htr_le, hext, abs_nonneg (((ratTrunc v : ℤ) : ℚ) - v)]

/-- Witness for the amended C3 bound at center 0, extent 1, p = 1/3. -/
theorem quantize_roundtrip_bound_witness :
    |dequantizePosAxis 0 1 (quantizePosAxis 0 1 (1 / 3)) - 1 / 3| < 2 * 1 / 65535 :=
  quantize_roundtrip_bound 0 1 (1 / 3) (by norm_num) (by norm_num) (by norm_num)

/-! ### Resource pruning: RemoveUnusedMaterials (MeshConverter.cpp:2782-2813)
and RemoveUnusedJoints (MeshConverter.cpp:2710-2780) -/

/-- `MeshConverter::RemoveUnusedMaterials`: mark the materials referenced by
some mesh's `mtl_id`; assign dense new ids to the used ones into
`mtl_mapping` (a vector value-initialized to 0); then run the copy loop
`GetMaterial(i) = GetMaterial(mtl_mapping[i])` in index order over the
current array state; truncate to the new count; finally rewrite each mesh's
`mtl_id` through the mapping. -/
def RemoveUnusedMaterials {α : Type*} [Inhabited α] (materials : List α)
    (meshMtlIds : List ℕ) : List α × List ℕ :=
  let n := materials.length
  let mtl_used := meshMtlIds.foldl (fun (used : List Bool) i => used.set i true)
    (List.replicate n false)
  let mp := (List.range n).foldl
    (fun (mc : List ℕ × ℕ) i =>
      if mtl_used.getD i false then (mc.1.set i mc.2, mc.2 + 1) else mc)
    (List.replicate n 0, 0)
  let mtl_mapping := mp.1
  let new_mtl_id := mp.2
  let mats := (List.range n).foldl
    (fun (arr : List α) i => arr.set i (arr.getD (mtl_mapping.getD i 0) default))
    materials
  (mats.take new_mtl_id, meshMtlIds.map (fun i => mtl_mapping.getD i 0))

/-- C5: evaluation at a failing input. With materials `[10, 20]` and a single
mesh referencing material 1, the pruner keeps one material as required, but
the in-place copy loop runs backwards (`mat[i] = mat[mapping[i]]` instead of
`mat[mapping[i]] = mat[i]`), so the surviving slot holds material 10 — the
unreferenced one — while the mesh's remapped id 0 was supposed to keep
pointing at material 20. -/
theorem RemoveUnusedMaterials_failing :
    RemoveUnusedMaterials [10, 20] [1] = ([10], [0]) ∧
    ((RemoveUnusedMaterials [10, 20] [1]).1.getD 0 0 ≠ ([10, 20] : List ℕ).getD 1 0) := by
  constructor
  · rfl
  · decide

/-- KlayGE `Joint` (the fields `MeshConverter` uses). `parent` is the int16
parent index, -1 for roots. The `inverse_origin_*` fields are "borrowed" by
`BuildJoints` to hold the node-local transform (MeshConverter.cpp:642-644)
until the final assembly recomputes them. -/
structure Joint where
  name : String
  parent : ℤ := -1
  bind_real : Quat := Quat.identity
  bind_dual : Quat := Quat.zero
  bind_scale : ℚ := 1
  inverse_origin_real : Quat := Quat.identity
  inverse_origin_dual : Quat := Quat.zero
  inverse_origin_scale : ℚ := 1
deriving DecidableEq

instance : Inhabited Joint := ⟨{ name := "" }⟩

/-- The empty KeyFrameSet (a default-constructed `KeyFrameSet`). -/
def KeyFrameSet.empty : KeyFrameSet := ⟨[], [], [], []⟩

/-- The ancestor-marking `while` walk of `RemoveUnusedJoints`
(MeshConverter.cpp:2734-2738): from joint `c`, while the parent exists and is
unmarked, mark it and climb. Fuel bounds the walk; `joints.length` suffices
whenever parent indices decrease toward the root (they do: `BuildJoints`
allocates parents before children), making this coincide with the C++ loop. -/
def markAncestorsGo (joints : List Joint) : ℕ → ℕ → List Bool → List Bool
  | 0, _, used => used
  | fuel + 1, c, used =>
    let p := (joints.getD c default).parent
    if p ≠ -1 ∧ ¬ used.getD p.toNat false then
      markAncestorsGo joints fuel p.toNat (used.set p.toNat true)
    else used

/-- Per-vertex joint bindings of one mesh LOD: for each vertex a list of
(joint index, weight) pairs. -/
abbrev JointBindings := List (List (ℕ × ℚ))

/-- `MeshConverter::RemoveUnusedJoints` (MeshConverter.cpp:2710-2780) acting
on the converter state it touches: the joint array, the per-joint keyframe
sets, and every mesh LOD's per-vertex joint bindings. Marks joints used by
any binding, closes the marking under parents, densely renumbers the kept
joints (`joint_mapping`), compacts `joints_` and `kfs` in place via
`x[mapping[ji]] = x[ji]` in increasing `ji`, truncates both, and rewrites the
binding indices through the mapping. Parent fields are not touched. -/
def RemoveUnusedJoints (joints : List Joint) (kfs : List KeyFrameSet)
    (meshes : List (List JointBindings)) :
    List Joint × List KeyFrameSet × List (List JointBindings) :=
  let n := joints.length
  let used0 := meshes.foldl
    (fun u lods => lods.foldl
      (fun u verts => verts.foldl
        (fun u binds => binds.foldl (fun (u : List Bool) b => u.set b.1 true) u) u) u)
    (List.replicate n false)
  let used := (List.range n).foldl
    (fun u ji => if u.getD ji false then markAncestorsGo joints n ji u else u) used0
  let mp := (List.range n).foldl
    (fun (mc : List ℕ × ℕ) ji =>
      if used.getD ji false then (mc.1.set ji mc.2, mc.2 + 1) else mc)
    (List.replicate n 0, 0)
  let joint_mapping := mp.1
  let new_joint_id := mp.2
  let compact := (List.range n).foldl
    (fun (jk : List Joint × List KeyFrameSet) ji =>
      if used.getD ji false then
        (jk.1.set (joint_mapping.getD ji 0) (jk.1.getD ji default),
         jk.2.set (joint_mapping.getD ji 0) (jk.2.getD ji KeyFrameSet.empty))
      else jk)
    (joints, kfs)
  (compact.1.take new_joint_id, compact.2.take new_joint_id,
   meshes.map (fun lods => lods.map (fun verts => verts.map (fun binds =>
     binds.map (fun b => (joint_mapping.getD b.1 0, b.2))))))

/-- Concrete four-joint input for the C6 failing case: D's parent is C
(index 2); only D (index 3) is referenced by a mesh binding. -/
def jointsC6 : List Joint :=
  [{ name := "A" }, { name := "B" }, { name := "C" }, { name := "D", parent := 2 }]

/-- The pruning result on `jointsC6` with one mesh whose single vertex binds
joint 3 with weight 1. -/
def prunedC6 : List Joint × List KeyFrameSet × List (List JointBindings) :=
  RemoveUnusedJoints jointsC6
    [KeyFrameSet.empty, KeyFrameSet.empty, KeyFrameSet.empty, KeyFrameSet.empty]
    [[[[(3, 1)]]]]

/-- C6: evaluation at a failing input. On `jointsC6`, pruning keeps the
ancestor C as required and maps old index 2 to 0 and 3 to 1, but the kept
child D still stores parent index 2, which is outside the pruned two-joint
array — a dangling parent reference (parent fields are never remapped). -/
theorem RemoveUnusedJoints_failing :
    prunedC6.1 = [{ name := "C" }, { name := "D", parent := 2 }] ∧
    (prunedC6.1.getD 1 default).parent = 2 ∧
    prunedC6.1.length = 2 :=
  ⟨rfl, rfl, rfl⟩

/-! ### Convert / LoadFromAssimp error handling
(MeshConverter.cpp:868-892 and 2868-2912) -/

/-- The extension dispatch at the top of `MeshConverter::Convert`
(MeshConverter.cpp:2895-2908). -/
inductive InputExt where
  | modelBin
  | meshml
  | assimpFile
deriving DecidableEq

/-- The external boundaries `Convert`/`LoadFromAssimp` interact with,
abstracted per the spec's Scene Importer / Model Writer boundaries:
`ResLoader::Locate` results (`none` models an empty/not-found result), the
Assimp importer per LOD, the two non-Assimp loaders, scene compilation
(`BuildJoints` .. `BuildActions`) and the downstream pipeline stages. `Scene`
and `Model` are abstract payloads. -/
structure ConvertEnv (Scene Model : Type*) where
  locateInput : Option String
  inputExt : InputExt
  numLods : ℕ
  locateLod : ℕ → Option String
  importScene : ℕ → Option Scene
  loadSoftwareModel : Option Model
  loadFromMeshML : Option Model
  buildModel : List Scene → Model
  pipeline : Model → Model

/-- The LOD-loading loop of `LoadFromAssimp` (MeshConverter.cpp:869-892):
locate each LOD's source (LOD 0 uses the input name already located by
`Convert`), import it, and return early with no scenes on the first failure.
Structural on the remaining LOD count. -/
def loadScenes {Scene : Type*} (locateLod : ℕ → Option String)
    (importScene : ℕ → Option Scene) : ℕ → ℕ → Option (List Scene)
  | 0, _ => some []
  | remaining + 1, lod =>
    if lod = 0 ∨ (locateLod lod).isSome then
      match importScene lod with
      | none => none
      | some sc =>
        match loadScenes locateLod importScene remaining (lod + 1) with
        | none => none
        | some rest => some (sc :: rest)
    else
      none

/-- `MeshConverter::LoadFromAssimp`: `render_model_` is only created (at
line 900-905) after every LOD scene has loaded; an early return leaves it
null. -/
def MeshConverter.LoadFromAssimp {Scene Model : Type*} (env : ConvertEnv Scene Model) :
    Option Model :=
  match loadScenes env.locateLod env.importScene env.numLods 0 with
  | none => none
  | some scenes => some (env.buildModel scenes)

/-- `MeshConverter::Convert` (MeshConverter.cpp:2868-2912 and the tail of the
function): locate the input (abort on failure), dispatch on the extension,
and abort returning a null model if the loader left `render_model_` null;
otherwise the pipeline runs and the model is returned. -/
def MeshConverter.Convert {Scene Model : Type*} (env : ConvertEnv Scene Model) :
    Option Model :=
  match env.locateInput with
  | none => none
  | some _ =>
    match env.inputExt with
    | .modelBin => env.loadSoftwareModel
    | .meshml =>
      match env.loadFromMeshML with
      | none => none
      | some m => some (env.pipeline m)
    | .assimpFile =>
      match MeshConverter.LoadFromAssimp env with
      | none => none
      | some m => some (env.pipeline m)

theorem loadScenes_none {Scene : Type*} (locateLod : ℕ → Option String)
    (importScene : ℕ → Option Scene) :
    ∀ (count start l : ℕ), start ≤ l → l < start + count →
      ((l ≠ 0 ∧ locateLod l = none) ∨ importScene l = none) →
      loadScenes locateLod importScene count start = none := by
  intro count
  induction count with
  | zero =>
    intro start l h1 h2 h3
    omega
  | succ k ih =>
    intro start l h1 h2 h3
    by_cases hl : l = start
    · subst hl
      simp only [loadScenes]
      rcases h3 with ⟨hne, hloc⟩ | himp
      · rw [if_neg]
        push_neg
        exact ⟨hne, by rw [hloc]; exact Bool.false_ne_true⟩
      · by_cases hg : l = 0 ∨ (locateLod l).isSome
        · rw [if_pos hg, himp]
        · rw [if_neg hg]
    · have hlt : start + 1 ≤ l := by omega
      simp only [loadScenes]
      by_cases hg : start = 0 ∨ (locateLod start).isSome
      · rw [if_pos hg]
        cases himp : importScene start with
        | none => rfl
        | some sc =>
          rw [ih (start + 1) l hlt (by omega) h3]
      · rw [if_neg hg]

/-- C9: if the input cannot be located, or (on the Assimp path) some LOD's
source cannot be located or the importer fails to parse some LOD's scene,
`Convert` returns a null model: no partial model is produced. -/
theorem Convert_aborts {Scene Model : Type*} (env : ConvertEnv Scene Model)
    (h : env.locateInput = none ∨
      (env.inputExt = InputExt.assimpFile ∧ ∃ lod, lod < env.numLods ∧
        ((lod ≠ 0 ∧ env.locateLod lod = none) ∨ env.importScene lod = none))) :
    MeshConverter.Convert env = none := by
  rcases h with hloc | ⟨hext, lod, hlt, hfail⟩
  · unfold MeshConverter.Convert
    rw [hloc]
  · unfold MeshConverter.Convert MeshConverter.LoadFromAssimp
    rw [loadScenes_none env.locateLod env.importScene env.numLods 0 lod
      (by omega) (by omega) hfail]
    cases hli : env.locateInput with
    | none => rfl
    | some name =>
      rw [hext]

/-! ### Bone-weight accumulation in BuildMeshData (MeshConverter.cpp:514-553) -/

/-- 4x4 float matrix (row-major `float4x4`), modelled over `ℚ`. -/
abbrev Mat4 := Fin 4 → Fin 4 → ℚ

/-- An Assimp `aiVertexWeight`: target vertex id and weight. -/
structure AiVertexWeight where
  vertexId : ℕ
  weight : ℚ
deriving DecidableEq

/-- An Assimp `aiBone`: bone name, offset matrix, vertex weights. -/
structure AiBone where
  name : String
  offsetMatrix : Mat4 := fun _ _ => 0
  weights : List AiVertexWeight := []

/-- The body of the weight loop (MeshConverter.cpp:526-534): a weight is
pushed onto its vertex's binding list only when `weight >= 0.5f / 255`
(= 1/510 exactly). -/
def recordWeight (ji : ℕ) (bnd : JointBindings) (w : AiVertexWeight) : JointBindings :=
  if (1 : ℚ) / 510 ≤ w.weight then
    bnd.set w.vertexId (bnd.getD w.vertexId [] ++ [(ji, w.weight)])
  else
    bnd

/-- One bone's pass of the loop at MeshConverter.cpp:518-544: find the first
joint with the bone's name (`break` on first match) and record its weights;
a bone with no matching joint trips `BOOST_ASSERT_MSG(false, "Joint not
found!")` and in release builds silently contributes nothing. -/
def accumulateBoneWeights (joints : List Joint) (bnd : JointBindings) (bone : AiBone) :
    JointBindings :=
  match joints.findIdx? (fun j => j.name == bone.name) with
  | some ji => bone.weights.foldl (recordWeight ji) bnd
  | none => bnd

/-- The descending-weight ordering of the sort at MeshConverter.cpp:546-553
(comparator `lhs.second > rhs.second`), as the non-strict relation whose
`Sorted` predicate states "sorted by descending weight". -/
def wge (a b : ℕ × ℚ) : Prop := b.2 ≤ a.2

instance : DecidableRel wge := fun a b => inferInstanceAs (Decidable (b.2 ≤ a.2))

instance : IsTotal (ℕ × ℚ) wge := ⟨fun a b => le_total b.2 a.2⟩

instance : IsTrans (ℕ × ℚ) wge := ⟨fun _ _ _ h1 h2 => le_trans h2 h1⟩

/-- The joint-binding part of `MeshConverter::BuildMeshData`
(MeshConverter.cpp:514-553) for one mesh LOD: resize the per-vertex table to
the vertex count, run every bone's weight loop, then sort each vertex's
bindings by descending weight (`std::sort`, modelled by an insertion sort
with the same ordering: same sortedness, same multiset of entries). -/
def buildJointBindings (joints : List Joint) (numVertices : ℕ) (bones : List AiBone) :
    JointBindings :=
  let raw := bones.foldl (accumulateBoneWeights joints) (List.replicate numVertices [])
  raw.map (fun l => List.insertionSort wge l)

/-- The bindings that the weight loops contribute to vertex `v`, bone by bone
in order (characterization used to state and prove the C10 theorem). -/
def boneEntriesFor (joints : List Joint) (v : ℕ) : List AiBone → List (ℕ × ℚ)
  | [] => []
  | bone :: rest =>
    (match joints.findIdx? (fun j => j.name == bone.name) with
     | some ji =>
       ((bone.weights.filter
          (fun w => decide (w.vertexId = v ∧ (1 : ℚ) / 510 ≤ w.weight))).map
        (fun w => (ji, w.weight)))
     | none => []) ++ boneEntriesFor joints v rest

theorem getD_set_self_of_lt {α : Type*} (l : List α) (i : ℕ) (x d : α)
    (h : i < l.length) : (l.set i x).getD i d = x := by
  simp [List.getD, List.getElem?_set_self, h]

theorem getD_set_of_ne {α : Type*} (l : List α) (i v : ℕ) (x d : α) (h : i ≠ v) :
    (l.set i x).getD v d = l.getD v d := by
  simp [List.getD, List.getElem?_set_ne h]

theorem length_foldl_recordWeight (ji : ℕ) :
    ∀ (ws : List AiVertexWeight) (bnd : JointBindings),
      (ws.foldl (recordWeight ji) bnd).length = bnd.length := by
  intro ws
  induction ws with
  | nil => intro bnd; rfl
  | cons w rest ih =>
    intro bnd
    rw [List.foldl_cons, ih]
    unfold recordWeight
    by_cases hw : (1 : ℚ) / 510 ≤ w.weight
    · rw [if_pos hw, List.length_set]
    · rw [if_neg hw]

theorem getD_foldl_recordWeight (ji : ℕ) :
    ∀ (ws : List AiVertexWeight) (bnd : JointBindings) (v : ℕ), v < bnd.length →
      (ws.foldl (recordWeight ji) bnd).getD v [] =
        bnd.getD v [] ++
          ((ws.filter (fun w => decide (w.vertexId = v ∧ (1 : ℚ) / 510 ≤ w.weight))).map
            (fun w => (ji, w.weight))) := by
  intro ws
  induction ws with
  | nil =>
    intro bnd v hv
    simp
  | cons w rest ih =>
    intro bnd v hv
    rw [List.foldl_cons]
    by_cases hw : (1 : ℚ) / 510 ≤ w.weight
    · by_cases hvid : w.vertexId = v
      · have hrec : recordWeight ji bnd w = bnd.set v (bnd.getD v [] ++ [(ji, w.weight)]) := by
          unfold recordWeight
          rw [if_pos hw, hvid]
        rw [hrec, ih _ v (by rw [List.length_set]; exact hv)]
        rw [getD_set_self_of_lt _ _ _ _ hv]
        rw [List.filter_cons_of_pos
          (by simp only [decide_eq_true_eq]; exact ⟨hvid, hw⟩), List.map_cons]
        simp
      · have hrec : recordWeight ji bnd w =
            bnd.set w.vertexId (bnd.getD w.vertexId [] ++ [(ji, w.weight)]) := by
          unfold recordWeight
          rw [if_pos hw]
        rw [hrec, ih _ v (by rw [List.length_set]; exact hv)]
        rw [getD_set_of_ne _ _ _ _ _ hvid]
        rw [List.filter_cons_of_neg
          (by simp only [decide_eq_true_eq]; exact fun hcon => hvid hcon.1)]
    · have hrec : recordWeight ji bnd w = bnd := by
        unfold recordWeight
        rw [if_neg hw]
      rw [hrec, ih _ v hv]
      rw [List.filter_cons_of_neg
        (by simp only [decide_eq_true_eq]; exact fun hcon => hw hcon.2)]

theorem length_accumulateBoneWeights (joints : List Joint) (bnd : JointBindings)
    (bone : AiBone) : (accumulateBoneWeights joints bnd bone).length = bnd.length := by
  unfold accumulateBoneWeights
  cases joints.findIdx? (fun j => j.name == bone.name) with
  | none => rfl
  | some ji => exact length_foldl_recordWeight ji bone.weights bnd

theorem getD_foldl_accumulate (joints : List Joint) :
    ∀ (bones : List AiBone) (bnd : JointBindings) (v : ℕ), v < bnd.length →
      (bones.foldl (accumulateBoneWeights joints) bnd).getD v [] =
        bnd.getD v [] ++ boneEntriesFor joints v bones := by
  intro bones
  induction bones with
  | nil =>
    intro bnd v hv
    simp [boneEntriesFor]
  | cons bone rest ih =>
    intro bnd v hv
    rw [List.foldl_cons,
      ih _ v (by rw [length_accumulateBoneWeights]; exact hv)]
    simp only [boneEntriesFor]
    cases hfi : joints.findIdx? (fun j => j.name == bone.name) with
    | none =>
      have hacc : accumulateBoneWeights joints bnd bone = bnd := by
        unfold accumulateBoneWeights
        rw [hfi]
      rw [hacc]
      simp
    | some ji =>
      have hacc : accumulateBoneWeights joints bnd bone =
          bone.weights.foldl (recordWeight ji) bnd := by
        unfold accumulateBoneWeights
        rw [hfi]
      rw [hacc, getD_foldl_recordWeight ji bone.weights bnd v hv,
        List.append_assoc]

theorem mem_boneEntriesFor (joints : List Joint) (v : ℕ) :
    ∀ (bones : List AiBone) (ji : ℕ) (wt : ℚ),
      (ji, wt) ∈ boneEntriesFor joints v bones ↔
        ∃ bone ∈ bones, joints.findIdx? (fun j => j.name == bone.name) = some ji ∧
          ∃ w ∈ bone.weights, w.vertexId = v ∧ w.weight = wt ∧ (1 : ℚ) / 510 ≤ wt := by
  intro bones
  induction bones with
  | nil =>
    intro ji wt
    simp [boneEntriesFor]
  | cons bone rest ih =>
    intro ji wt
    simp only [boneEntriesFor]
    rw [List.mem_append, ih]
    constructor
    · rintro (hhead | htail)
      · cases hfi : joints.findIdx? (fun j => j.name == bone.name) with
        | none => rw [hfi] at hhead; simp at hhead
        | some ji' =>
          rw [hfi] at hhead
          simp only [List.mem_map, List.mem_filter] at hhead
          obtain ⟨w, ⟨hwmem, hwcond⟩, hweq⟩ := hhead
          simp only [decide_eq_true_eq] at hwcond
          obtain ⟨hjieq, hwteq⟩ := Prod.mk.injEq .. ▸ hweq
          refine ⟨bone, List.mem_cons_self bone rest, ?_, w, hwmem, hwcond.1, ?_, ?_⟩
          · rw [hfi, hjieq]
          · exact hwteq
          · exact hwteq ▸ hwcond.2
      · obtain ⟨b, hb, rest'⟩ := htail
        exact ⟨b, List.mem_cons_of_mem bone hb, rest'⟩
    · rintro ⟨b, hb, hfi, w, hwmem, hwv, hwt, hth⟩
      rcases List.mem_cons.mp hb with hbeq | hbrest
      · subst hbeq
        left
        rw [hfi]
        simp only [List.mem_map, List.mem_filter]
        refine ⟨w, ⟨hwmem, ?_⟩, ?_⟩
        · simp only [decide_eq_true_eq]
          exact ⟨hwv, hwt ▸ hth⟩
        · rw [hwt]
      · right
        exact ⟨b, hbrest, hfi, w, hwmem, hwv, hwt, hth⟩

theorem length_foldl_accumulate (joints : List Joint) :
    ∀ (bones : List AiBone) (bnd : JointBindings),
      (bones.foldl (accumulateBoneWeights joints) bnd).length = bnd.length := by
  intro bones
  induction bones with
  | nil => intro bnd; rfl
  | cons bone rest ih =>
    intro bnd
    rw [List.foldl_cons, ih, length_accumulateBoneWeights]

theorem getD_map_eq {α β : Type*} (f : α → β) (l : List α) (v : ℕ) (h : v < l.length)
    (d : β) (d' : α) : (l.map f).getD v d = f (l.getD v d') := by
  simp [List.getD, List.getElem?_map, List.getElem?_eq_getElem h]

/-- C10: during mesh accumulation, an importer bone weight is recorded as a
binding (joint index, weight) for its vertex exactly when the weight is at
least 0.5/255 = 1/510 (smaller weights are silently discarded), the joint
index being the first joint whose name matches the bone; and every vertex's
recorded bindings end up sorted by descending weight. -/
theorem buildJointBindings_spec (joints : List Joint) (numVertices : ℕ)
    (bones : List AiBone) (v : ℕ) (hv : v < numVertices) :
    (∀ ji wt, ((ji, wt) ∈ (buildJointBindings joints numVertices bones).getD v [] ↔
      ∃ bone ∈ bones, joints.findIdx? (fun j => j.name == bone.name) = some ji ∧
        ∃ w ∈ bone.weights, w.vertexId = v ∧ w.weight = wt ∧ (1 : ℚ) / 510 ≤ wt)) ∧
    List.Sorted wge ((buildJointBindings joints numVertices bones).getD v []) := by
  have hlen : (bones.foldl (accumulateBoneWeights joints)
      (List.replicate numVertices [])).length = numVertices := by
    rw [length_foldl_accumulate, List.length_replicate]
  have hmap : (buildJointBindings joints numVertices bones).getD v [] =
      List.insertionSort wge
        ((bones.foldl (accumulateBoneWeights joints)
          (List.replicate numVertices [])).getD v []) := by
    unfold buildJointBindings
    exact getD_map_eq _ _ v (by rw [hlen]; exact hv) [] []
  have hrawv : (bones.foldl (accumulateBoneWeights joints)
      (List.replicate numVertices [])).getD v [] = boneEntriesFor joints v bones := by
    rw [getD_foldl_accumulate joints bones _ v (by rw [List.length_replicate]; exact hv)]
    simp [List.getD]
  constructor
  · intro ji wt
    rw [hmap, List.Perm.mem_iff (List.perm_insertionSort wge _), hrawv]
    exact mem_boneEntriesFor joints v bones ji wt
  · rw [hmap]
    exact List.sorted_insertionSort wge _

/-- Concrete joints for the C10 witness. -/
def jointsC10 : List Joint := [{ name := "root" }, { name := "tip" }]

/-- Concrete bones for the C10 witness: one weight above the 1/510 threshold
and one below. -/
def bonesC10 : List AiBone :=
  [{ name := "tip", weights := [⟨0, 1 / 2⟩, ⟨0, 1 / 1000⟩] }]

/-- Witness for C10 at a concrete one-vertex mesh. -/
theorem buildJointBindings_spec_witness :
    (0 : ℕ) < 1 ∧ List.Sorted wge ((buildJointBindings jointsC10 1 bonesC10).getD 0 []) :=
  ⟨by norm_num, (buildJointBindings_spec jointsC10 1 bonesC10 0 (by norm_num)).2⟩

/-- Concrete environment for the C9 witness: one LOD whose import fails. -/
def envC9 : ConvertEnv Unit Unit where
  locateInput := some "m.fbx"
  inputExt := InputExt.assimpFile
  numLods := 1
  locateLod := fun _ => none
  importScene := fun _ => none
  loadSoftwareModel := none
  loadFromMeshML := none
  buildModel := fun _ => ()
  pipeline := id

/-- Witness for C9: the concrete failing environment yields no model. -/
theorem Convert_aborts_witness : MeshConverter.Convert envC9 = none :=
  Convert_aborts envC9 (Or.inr ⟨rfl, 0, by decide, Or.inr rfl⟩)

/-! ### BuildActions and ResampleJointTransform (MeshConverter.cpp:662-840) -/

instance : Inhabited Float3 := ⟨⟨0, 0, 0⟩⟩

instance : Inhabited Quat := ⟨Quat.identity⟩

/-- An Assimp `aiNodeAnim` (one animation channel), its key arrays already in
the (time, value) pair form the loops at MeshConverter.cpp:707-726 build. -/
structure AiNodeAnim where
  nodeName : String
  positionKeys : List (ℚ × Float3) := []
  rotationKeys : List (ℚ × Quat) := []
  scalingKeys : List (ℚ × Float3) := []

instance : Inhabited AiNodeAnim := ⟨{ nodeName := "" }⟩

/-- An Assimp `aiAnimation` (one clip). -/
structure AiAnimation where
  name : String
  duration : ℚ
  ticksPerSecond : ℚ
  channels : List AiNodeAnim := []

/-- Ceiling expressed through the floor (`ceilf`); floor-based so concrete
rationals evaluate. -/
def ratCeil (q : ℚ) : ℤ := -⌊-q⌋

/-- One iteration of the frame loop of `ResampleJointTransform`
(MeshConverter.cpp:796-839): sample the scale, rotation and position tracks
at `time` with the three persistent cursors (`prev_i` and `fraction` are
local to the iteration and shared between the three blocks exactly as in the
C++), canonicalize the hemisphere, and return the new cursors
(i_pos, i_rot, i_scale) with the frame's (bind_real, bind_dual, bind_scale). -/
def resampleFrame (ops : MathLibOps) (poss : List (ℚ × Float3))
    (quats : List (ℚ × Quat)) (scales : List (ℚ × Float3)) (time : ℚ)
    (iPos iRot iScale : ℕ) : (ℕ × ℕ × ℕ) × (Quat × Quat × ℚ) :=
  let p1 : ℚ × ℕ × ℕ :=
    if scales.isEmpty then (0, 0, iScale) else GetInterpTime scales time iScale
  let scaleRes : Float3 :=
    if scales.isEmpty then ⟨1, 1, 1⟩
    else lerp3 (scales.getD p1.2.1 default).2 (scales.getD p1.2.2 default).2 p1.1
  let p2 : ℚ × ℕ × ℕ :=
    if quats.isEmpty then (p1.1, p1.2.1, iRot) else GetInterpTime quats time iRot
  let realRes : Quat :=
    if quats.isEmpty then Quat.identity
    else ops.slerp (quats.getD p2.2.1 default).2 (quats.getD p2.2.2 default).2 p2.1
  let p3 : ℚ × ℕ × ℕ :=
    if poss.isEmpty then (p2.1, p2.2.1, iPos) else GetInterpTime poss time iPos
  let dualRes : Quat :=
    if poss.isEmpty then Quat.zero
    else
      let bdPrev := ops.quat_trans_to_udq (quats.getD p3.2.1 default).2
        (poss.getD p3.2.1 default).2
      let bdPos := ops.quat_trans_to_udq (quats.getD p2.2.2 default).2
        (poss.getD p3.2.2 default).2
      (ops.sclerp (quats.getD p3.2.1 default).2 bdPrev
        (quats.getD p2.2.2 default).2 bdPos p3.1).2
  let fin : Quat × Quat :=
    if SignBit realRes.w < 0 then (realRes.neg, dualRes.neg) else (realRes, dualRes)
  ((p3.2.2, p2.2.2, p1.2.2), (fin.1, fin.2, scaleRes.x))

/-- Append one sample to a KeyFrameSet (the four `push_back` calls at
MeshConverter.cpp:835-838). -/
def KeyFrameSet.push (kf : KeyFrameSet) (f : ℤ) (r d : Quat) (s : ℚ) : KeyFrameSet :=
  ⟨kf.frame_id ++ [f], kf.bind_real ++ [r], kf.bind_dual ++ [d], kf.bind_scale ++ [s]⟩

/-- The frame loop of `ResampleJointTransform`, structural on the number of
remaining frames. -/
def resampleGo (ops : MathLibOps) (poss : List (ℚ × Float3))
    (quats : List (ℚ × Quat)) (scales : List (ℚ × Float3)) (fps_scale : ℚ) :
    ℕ → ℤ → ℕ → ℕ → ℕ → KeyFrameSet → KeyFrameSet
  | 0, _, _, _, _, kf => kf
  | n + 1, i, iPos, iRot, iScale, kf =>
    let r := resampleFrame ops poss quats scales ((i : ℚ) * fps_scale) iPos iRot iScale
    resampleGo ops poss quats scales fps_scale n (i + 1) r.1.1 r.1.2.1 r.1.2.2
      (kf.push i r.2.1 r.2.2.1 r.2.2.2)

/-- `MeshConverter::ResampleJointTransform` (MeshConverter.cpp:789-840):
appends, for each output frame `start_frame ≤ i < end_frame`, the resampled
sample at time `i * fps_scale` into `rkf`; the three track cursors start at
0 for each call. -/
def ResampleJointTransform (ops : MathLibOps) (rkf : KeyFrameSet)
    (start_frame end_frame : ℤ) (fps_scale : ℚ) (poss : List (ℚ × Float3))
    (quats : List (ℚ × Quat)) (scales : List (ℚ × Float3)) : KeyFrameSet :=
  resampleGo ops poss quats scales fps_scale (end_frame - start_frame).toNat
    start_frame 0 0 0 rkf

/-- The `Animation` record local to `BuildActions` (MeshConverter.cpp:666-671):
name, frame count, and the per-joint resampled keyframes
(`std::map<int, KeyFrameSet>` modelled as an association list). -/
structure Animation where
  name : String
  frame_num : ℤ
  resampled_frames : List (ℤ × KeyFrameSet)

/-- Store a value under a key in the association-list map (`operator[]` /
`emplace` on `std::map`): replace in place or append. -/
def mapStore : List (ℤ × KeyFrameSet) → ℤ → KeyFrameSet → List (ℤ × KeyFrameSet)
  | [], k, v => [(k, v)]
  | (k', v') :: rest, k, v =>
    if k = k' then (k, v) :: rest else (k', v') :: mapStore rest k v

/-- `anim.resampled_frames[joint_id]` on the right-hand side of the resample
call: the existing set, or a default-constructed one. -/
def mapGetOrEmpty (m : List (ℤ × KeyFrameSet)) (k : ℤ) : KeyFrameSet :=
  (m.lookup k).getD KeyFrameSet.empty

/-- The joint search of the per-clip half of `BuildActions`
(MeshConverter.cpp:694-702): first joint whose name matches the channel's
node name, -1 when absent. The caller then resamples the channel only when
`joint_id > 0` ("NOTE: ignore animation if node is not joint"); the clip's
frame count is `max(1, ceil(duration_seconds * 25))` and every joint with no
entry afterwards receives one default frame 0 holding the borrowed local
bind transform (`inverse_origin_*`). -/
def channelJointId (joints : List Joint) (ch : AiNodeAnim) : ℤ :=
  match joints.findIdx? (fun j => j.name == ch.nodeName) with
  | some ji => (ji : ℤ)
  | none => -1

/-- The map-filling body of the per-clip half (see `channelJointId` above for
the joint search at MeshConverter.cpp:694-702). -/
def buildClipAnimation (ops : MathLibOps) (joints : List Joint)
    (clip : AiAnimation) : Animation :=
  let duration := clip.duration / clip.ticksPerSecond
  let fn := ratCeil (duration * 25)
  let frame_num := if fn = 0 then 1 else fn
  let withChannels := clip.channels.foldl
    (fun (m : List (ℤ × KeyFrameSet)) ch =>
      let joint_id : ℤ := channelJointId joints ch
      if 0 < joint_id then
        mapStore m joint_id
          (ResampleJointTransform ops (mapGetOrEmpty m joint_id) 0 frame_num
            (clip.ticksPerSecond / 25) ch.positionKeys ch.rotationKeys ch.scalingKeys)
      else m)
    []
  let withDefaults := (List.range joints.length).foldl
    (fun m ji =>
      if (m.lookup (ji : ℤ)).isSome then m
      else
        mapStore m (ji : ℤ)
          ⟨[0], [(joints.getD ji default).inverse_origin_real],
           [(joints.getD ji default).inverse_origin_dual],
           [(joints.getD ji default).inverse_origin_scale]⟩)
    withChannels
  ⟨clip.name, frame_num, withDefaults⟩

/-- KlayGE `AnimationAction`: name plus [start_frame, end_frame) on the
model-wide timeline. -/
structure AnimationAction where
  name : String
  start_frame : ℤ
  end_frame : ℤ
deriving DecidableEq

/-- The action/concatenation half of `BuildActions` (MeshConverter.cpp:752-786):
walk the clips with a running frame offset, emit one action per clip
spanning [offset, offset + frame_num), shift each resampled set by the offset
and append it to its joint's model-wide set, compressing after each append;
the final offset becomes the model's frame count (`NumFrames`). -/
def buildActionsGo (ops : MathLibOps) :
    List Animation → ℤ → List KeyFrameSet → List AnimationAction →
    List KeyFrameSet × List AnimationAction × ℤ
  | [], offset, kfs, actions => (kfs, actions, offset)
  | anim :: rest, offset, kfs, actions =>
    let kfs' := anim.resampled_frames.foldl
      (fun (ks : List KeyFrameSet) jk =>
        let j := jk.1.toNat
        let kf0 := ks.getD j KeyFrameSet.empty
        let appended : KeyFrameSet :=
          ⟨kf0.frame_id ++ jk.2.frame_id.map (fun f => f + offset),
           kf0.bind_real ++ jk.2.bind_real,
           kf0.bind_dual ++ jk.2.bind_dual,
           kf0.bind_scale ++ jk.2.bind_scale⟩
        ks.set j (CompressKeyFrameSet ops appended))
      kfs
    buildActionsGo ops rest (offset + anim.frame_num) kfs'
      (actions ++ [⟨anim.name, offset, offset + anim.frame_num⟩])

/-- `MeshConverter::BuildActions` (MeshConverter.cpp:662-787) over the
converter state it touches: builds the per-clip resampled animations, then
the model-wide keyframe sets, action list, and total frame count. -/
def BuildActions (ops : MathLibOps) (joints : List Joint)
    (clips : List AiAnimation) : List KeyFrameSet × List AnimationAction × ℤ :=
  let animations := clips.map (buildClipAnimation ops joints)
  buildActionsGo ops animations 0 (List.replicate joints.length KeyFrameSet.empty) []

/-- The actions the loop at MeshConverter.cpp:755-780 emits when entered with
a given running offset (characterization used for C7). -/
def actionsFrom : List Animation → ℤ → List AnimationAction
  | [], _ => []
  | anim :: rest, offset =>
    ⟨anim.name, offset, offset + anim.frame_num⟩ :: actionsFrom rest (offset + anim.frame_num)

/-- Total frame count contributed by a list of per-clip animations. -/
def sumFrames : List Animation → ℤ
  | [] => 0
  | anim :: rest => anim.frame_num + sumFrames rest

theorem buildActionsGo_spec (ops : MathLibOps) :
    ∀ (anims : List Animation) (offset : ℤ) (kfs : List KeyFrameSet)
      (acc : List AnimationAction),
      (buildActionsGo ops anims offset kfs acc).2.1 = acc ++ actionsFrom anims offset ∧
      (buildActionsGo ops anims offset kfs acc).2.2 = offset + sumFrames anims := by
  intro anims
  induction anims with
  | nil =>
    intro offset kfs acc
    simp [buildActionsGo, actionsFrom, sumFrames]
  | cons anim rest ih =>
    intro offset kfs acc
    simp only [buildActionsGo]
    obtain ⟨h1, h2⟩ := ih (offset + anim.frame_num) _
      (acc ++ [⟨anim.name, offset, offset + anim.frame_num⟩])
    rw [h1, h2]
    constructor
    · rw [actionsFrom, List.append_assoc]
      rfl
    · rw [sumFrames]
      ring

theorem sumFrames_nonneg (anims : List Animation)
    (h : ∀ a ∈ anims, 1 ≤ a.frame_num) : 0 ≤ sumFrames anims := by
  induction anims with
  | nil => simp [sumFrames]
  | cons anim rest ih =>
    rw [sumFrames]
    have h1 := h anim (List.mem_cons_self anim rest)
    have h2 := ih (fun a ha => h a (List.mem_cons_of_mem anim ha))
    omega

theorem actionsFrom_bounds :
    ∀ (anims : List Animation) (offset : ℤ), (∀ a ∈ anims, 1 ≤ a.frame_num) →
      ∀ act ∈ actionsFrom anims offset,
        offset ≤ act.start_frame ∧ act.start_frame < act.end_frame ∧
        act.end_frame ≤ offset + sumFrames anims := by
  intro anims
  induction anims with
  | nil =>
    intro offset h act hact
    simp [actionsFrom] at hact
  | cons anim rest ih =>
    intro offset h act hact
    have hfn := h anim (List.mem_cons_self anim rest)
    have hrest : ∀ a ∈ rest, 1 ≤ a.frame_num :=
      fun a ha => h a (List.mem_cons_of_mem anim ha)
    rw [actionsFrom] at hact
    rcases List.mem_cons.mp hact with heq | hmem
    · subst heq
      have := sumFrames_nonneg rest hrest
      refine ⟨le_refl _, by simp; omega, ?_⟩
      rw [sumFrames]
      simp
      omega
    · obtain ⟨ha1, ha2, ha3⟩ := ih (offset + anim.frame_num) hrest act hmem
      rw [sumFrames]
      refine ⟨by omega, ha2, by omega⟩

theorem actionsFrom_chain :
    ∀ (anims : List Animation) (offset : ℤ),
      List.Chain' (fun a b => b.start_frame = a.end_frame) (actionsFrom anims offset) := by
  intro anims
  induction anims with
  | nil =>
    intro offset
    simp [actionsFrom]
  | cons anim rest ih =>
    intro offset
    rw [actionsFrom]
    cases rest with
    | nil => simp [actionsFrom]
    | cons a2 r2 =>
      rw [actionsFrom]
      rw [List.chain'_cons]
      constructor
      · rfl
      · have := ih (offset + anim.frame_num)
        rw [actionsFrom] at this
        exact this

theorem actionsFrom_head (anims : List Animation) (offset : ℤ) (h : anims ≠ []) :
    (actionsFrom anims offset).head?.map (fun a => a.start_frame) = some offset := by
  cases anims with
  | nil => exact absurd rfl h
  | cons anim rest => rfl

theorem actionsFrom_getLast :
    ∀ (anims : List Animation) (offset : ℤ), anims ≠ [] →
      (actionsFrom anims offset).getLast?.map (fun a => a.end_frame) =
        some (offset + sumFrames anims) := by
  intro anims
  induction anims with
  | nil =>
    intro offset h
    exact absurd rfl h
  | cons anim rest ih =>
    intro offset h
    cases rest with
    | nil =>
      rw [actionsFrom, actionsFrom]
      rw [sumFrames, sumFrames]
      simp
    | cons a2 r2 =>
      rw [actionsFrom]
      have hne : actionsFrom (a2 :: r2) (offset + anim.frame_num) ≠ [] := by
        rw [actionsFrom]
        exact List.cons_ne_nil _ _
      cases hrep : actionsFrom (a2 :: r2) (offset + anim.frame_num) with
      | nil => exact absurd hrep hne
      | cons b bs =>
        rw [List.getLast?_cons_cons, ← hrep]
        have := ih (offset + anim.frame_num) (List.cons_ne_nil _ _)
        rw [this]
        congr 1
        simp only [sumFrames]
        ring

theorem actionsFrom_ne_nil (anims : List Animation) (offset : ℤ) (h : anims ≠ []) :
    actionsFrom anims offset ≠ [] := by
  cases anims with
  | nil => exact absurd rfl h
  | cons anim rest =>
    rw [actionsFrom]
    exact List.cons_ne_nil _ _

theorem buildClipAnimation_frame_num_pos (ops : MathLibOps) (joints : List Joint)
    (clip : AiAnimation) (hd : 0 ≤ clip.duration) (ht : 0 ≤ clip.ticksPerSecond) :
    1 ≤ (buildClipAnimation ops joints clip).frame_num := by
  unfold buildClipAnimation
  simp only
  have hq : (0 : ℚ) ≤ clip.duration / clip.ticksPerSecond * 25 :=
    mul_nonneg (div_nonneg hd ht) (by norm_num)
  have hfl : ⌊-(clip.duration / clip.ticksPerSecond * 25)⌋ ≤ 0 :=
    Int.floor_nonpos (by linarith)
  unfold ratCeil
  by_cases h0 : -⌊-(clip.duration / clip.ticksPerSecond * 25)⌋ = 0
  · rw [if_pos h0]
  · rw [if_neg h0]
    omega

/-- C7: after `BuildActions`, the model's total frame count (`NumFrames`, the
third component) equals the last action's `end_frame`; every action's
`[start_frame, end_frame)` lies within `[0, total]` and is non-empty; the
actions tile one global timeline contiguously (each action starts where the
previous one ended, the first at frame 0). Clips are assumed to carry
non-negative durations and tick rates, as the importer guarantees. -/
theorem BuildActions_frames (ops : MathLibOps) (joints : List Joint)
    (clips : List AiAnimation)
    (h : ∀ c ∈ clips, 0 ≤ c.duration ∧ 0 ≤ c.ticksPerSecond) :
    ((BuildActions ops joints clips).2.1 ≠ [] →
      ((BuildActions ops joints clips).2.1.getLast?.map (fun a => a.end_frame)) =
        some (BuildActions ops joints clips).2.2) ∧
    (∀ act ∈ (BuildActions ops joints clips).2.1,
      0 ≤ act.start_frame ∧ act.start_frame < act.end_frame ∧
      act.end_frame ≤ (BuildActions ops joints clips).2.2) ∧
    List.Chain' (fun a b => b.start_frame = a.end_frame)
      (BuildActions ops joints clips).2.1 ∧
    (clips ≠ [] →
      ((BuildActions ops joints clips).2.1.head?.map (fun a => a.start_frame)) =
        some 0) := by
  have hfn : ∀ a ∈ clips.map (buildClipAnimation ops joints), 1 ≤ a.frame_num := by
    intro a ha
    obtain ⟨c, hc, hceq⟩ := List.mem_map.mp ha
    obtain ⟨hd, ht⟩ := h c hc
    rw [← hceq]
    exact buildClipAnimation_frame_num_pos ops joints c hd ht
  obtain ⟨ha, ht⟩ := buildActionsGo_spec ops (clips.map (buildClipAnimation ops joints))
    0 (List.replicate joints.length KeyFrameSet.empty) []
  have hact : (BuildActions ops joints clips).2.1 =
      actionsFrom (clips.map (buildClipAnimation ops joints)) 0 := by
    unfold BuildActions
    rw [ha, List.nil_append]
  have htot : (BuildActions ops joints clips).2.2 =
      0 + sumFrames (clips.map (buildClipAnimation ops joints)) := by
    unfold BuildActions
    rw [ht]
  refine ⟨?_, ?_, ?_, ?_⟩
  · intro hne
    rw [hact, htot]
    apply actionsFrom_getLast
    intro hnil
    rw [hact, hnil] at hne
    simp [actionsFrom] at hne
  · intro act hmem
    rw [hact] at hmem
    obtain ⟨h1, h2, h3⟩ := actionsFrom_bounds _ 0 hfn act hmem
    rw [htot]
    exact ⟨h1, h2, h3⟩
  · rw [hact]
    exact actionsFrom_chain _ 0
  · intro hne
    rw [hact]
    apply actionsFrom_head
    intro hnil
    rw [List.map_eq_nil_iff] at hnil
    exact hne hnil

/-- Witness for C7: one clip of 2 ticks at 25 ticks per second with no
channels and no joints. -/
theorem BuildActions_frames_witness :
    ((BuildActions constOps [] [⟨"walk", 2, 25, []⟩]).2.1.head?.map
      (fun a => a.start_frame)) = some 0 :=
  (BuildActions_frames constOps [] [⟨"walk", 2, 25, []⟩]
    (by
      intro c hc
      rw [List.mem_singleton] at hc
      subst hc
      exact ⟨by norm_num, by norm_num⟩)).2.2.2
    (by simp)

/-- Concrete single-joint skeleton for the C4 failing input: the bone at
joint index 0 is named "root". -/
def jointsC4 : List Joint := [{ name := "root" }]

/-- Concrete clip for the C4 failing input: 2 ticks at 25 ticks/second with
one channel aimed at the node "root" — the name of joint 0. -/
def clipC4 : AiAnimation :=
  { name := "clip", duration := 2, ticksPerSecond := 25,
    channels := [{ nodeName := "root" }] }

/-- C4: evaluation at the failing input. The clip has 2 output frames and a
channel whose node name matches joint 0, yet because the channel filter reads
`joint_id > 0` instead of `joint_id >= 0` (contradicting its own comment
"ignore animation if node is not joint"), joint 0's channel is dropped and
the joint receives the single default bind frame instead of a full 2-frame
resampled track. -/
theorem BuildActions_joint0_skipped :
    (buildClipAnimation constOps jointsC4 clipC4).frame_num = 2 ∧
    clipC4.channels.map (fun c => c.nodeName) = jointsC4.map (fun j => j.name) ∧
    (buildClipAnimation constOps jointsC4 clipC4).resampled_frames =
      [(0, ⟨[0], [Quat.identity], [Quat.zero], [1]⟩)] := by
  refine ⟨?_, rfl, rfl⟩
  show (if ratCeil (clipC4.duration / clipC4.ticksPerSecond * 25) = 0 then 1
    else ratCeil (clipC4.duration / clipC4.ticksPerSecond * 25)) = 2
  norm_num [clipC4, ratCeil]

/-! ### MatrixToDQ (MeshConverter.cpp:136-164) and BuildJoints
(MeshConverter.cpp:571-660) -/

/-- Matrix transpose (`MathLib::transpose`, pinned by the spec's
`inverse(bone_offset_transposed)` wording). -/
def Mat4.transpose (m : Mat4) : Mat4 := fun i j => m j i

/-- Row-vector matrix product as used for transform composition. -/
def Mat4.mul (a b : Mat4) : Mat4 :=
  fun i j => a i 0 * b 0 j + a i 1 * b 1 j + a i 2 * b 2 j + a i 3 * b 3 j

/-- `float4x4::Identity()`. -/
def Mat4.id4 : Mat4 := fun i j => if i = j then 1 else 0

/-- The orientation test of `MatrixToDQ` (MeshConverter.cpp:140-142):
`dot(cross(row0, row1), row2)` over the upper 3x3 block. -/
def det3 (m : Mat4) : ℚ :=
  (m 0 1 * m 1 2 - m 0 2 * m 1 1) * m 2 0 +
  (m 0 2 * m 1 0 - m 0 0 * m 1 2) * m 2 1 +
  (m 0 0 * m 1 1 - m 0 1 * m 1 0) * m 2 2

/-- The reflection fix-up of `MatrixToDQ` (MeshConverter.cpp:144-146): negate
the first three entries of row 2. -/
def flipRow2 (m : Mat4) : Mat4 :=
  fun i j => if i.val = 2 ∧ j.val ≤ 2 then -(m i j) else m i j

/-- `MatrixToDQ` (MeshConverter.cpp:136-164): detect reflection via the
triple product of the upper 3x3 rows, flip row 2 and remember `flip = -1` if
negative, decompose, build the dual part, and negate both quaternions when
`flip * SignBit(bind_real.w) < 0`. Returns (bind_real, bind_dual,
bind_scale = scale.x). -/
def MatrixToDQ (ops : MathLibOps) (mat : Mat4) : Quat × Quat × ℚ :=
  let flip : ℚ := if det3 mat < 0 then -1 else 1
  let tmp := if det3 mat < 0 then flipRow2 mat else mat
  let d := ops.decompose tmp
  let bind_real := d.2.1
  let bind_dual := ops.quat_trans_to_udq d.2.1 d.2.2
  if flip * SignBit bind_real.w < 0 then (bind_real.neg, bind_dual.neg, d.1.x)
  else (bind_real, bind_dual, d.1.x)

/-- An Assimp mesh as `BuildJoints` sees it: its bone list. -/
structure AiMesh where
  bones : List AiBone

/-- An Assimp node: name, transformation, attached mesh indices, children. -/
inductive AiNode where
  | mk (name : String) (transformation : Mat4) (meshes : List ℕ) (children : List AiNode)

/-- The scene slice `BuildJoints` consumes. -/
structure AiSceneSkel where
  meshes : List AiMesh
  rootNode : AiNode

/-- The `std::map<std::string, Joint> joint_nodes` of `BuildJoints`, as an
association list. -/
abbrev JMap := List (String × Joint)

/-- `joint_nodes[name] = joint` (overwrite or insert). -/
def JMap.store : JMap → String → Joint → JMap
  | [], k, v => [(k, v)]
  | (k', v') :: rest, k, v =>
    if k = k' then (k, v) :: rest else (k', v') :: JMap.store rest k v

/-- `joint_nodes.find(name)`. -/
def JMap.find? : JMap → String → Option Joint
  | [], _ => none
  | (k, v) :: rest, name => if k = name then some v else JMap.find? rest name

/-- The joint one bone contributes (MeshConverter.cpp:584-592): bind pose from
`MatrixToDQ(inverse(transpose(offset)) * mesh_trans)`, other fields default. -/
def boneJoint (ops : MathLibOps) (mesh_trans : Mat4) (bone : AiBone) : Joint :=
  let r := MatrixToDQ ops (Mat4.mul (ops.minverse bone.offsetMatrix.transpose) mesh_trans)
  { name := bone.name, bind_real := r.1, bind_dual := r.2.1, bind_scale := r.2.2 }

/-- One attached mesh's bone walk (MeshConverter.cpp:579-594). -/
def addMeshBones (ops : MathLibOps) (scene : AiSceneSkel) (mesh_trans : Mat4)
    (jm : JMap) (mi : ℕ) : JMap :=
  (scene.meshes.getD mi ⟨[]⟩).bones.foldl
    (fun acc bone => JMap.store acc bone.name (boneJoint ops mesh_trans bone)) jm

mutual

/-- The `build_bind_matrix` walk of `BuildJoints` (MeshConverter.cpp:575-600):
accumulate `mesh_trans = transpose(node) * parent`, record every attached
bone's bind joint, and recurse with `mesh_trans`. -/
def buildBindMatrixNode (ops : MathLibOps) (scene : AiSceneSkel) :
    AiNode → Mat4 → JMap → JMap
  | .mk _ transformation meshIdxs children, parent_mat, jm =>
    let mesh_trans := Mat4.mul transformation.transpose parent_mat
    buildBindMatrixList ops scene children mesh_trans
      (meshIdxs.foldl (addMeshBones ops scene mesh_trans) jm)

/-- Child recursion of `build_bind_matrix`. -/
def buildBindMatrixList (ops : MathLibOps) (scene : AiSceneSkel) :
    List AiNode → Mat4 → JMap → JMap
  | [], _, jm => jm
  | c :: rest, mat, jm =>
    buildBindMatrixList ops scene rest mat (buildBindMatrixNode ops scene c mat jm)

end

mutual

/-- The `mark_joint_nodes` walk (MeshConverter.cpp:602-629): returns whether
the subtree holds a joint, and synthesizes an identity-bind helper joint for
a marked node that had no bone data (the `find` runs before the recursion,
as in the C++). -/
def markNode : AiNode → JMap → Bool × JMap
  | .mk name _ _ children, jm =>
    let found := (JMap.find? jm name).isSome
    let rc := markList children jm
    let child_has_bone := found || rc.1
    if child_has_bone ∧ ¬ found then
      (child_has_bone,
       JMap.store rc.2 name
        { name := name, bind_real := Quat.identity, bind_dual := Quat.zero,
          bind_scale := 1 })
    else
      (child_has_bone, rc.2)

/-- Child recursion of `mark_joint_nodes`
(`child_has_bone = mark(child) || child_has_bone`). -/
def markList : List AiNode → JMap → Bool × JMap
  | [], jm => (false, jm)
  | c :: rest, jm =>
    let rc := markNode c jm
    let rr := markList rest rc.2
    (rc.1 || rr.1, rr.2)

end

mutual

/-- The `alloc_joints` walk (MeshConverter.cpp:631-655): pre-order; a node
found in the map is appended to `joints_` with its parent id and with the
`inverse_origin_*` fields borrowed to hold the node's local transform
(`MatrixToDQ(transpose(node->mTransformation))`); children receive this
node's id as parent, or -1 under an unmarked node. -/
def allocNode (ops : MathLibOps) (jm : JMap) :
    AiNode → ℤ → List Joint → List Joint
  | .mk name transformation _ children, parent_id, joints =>
    match JMap.find? jm name with
    | some j =>
      let joint_id : ℤ := (joints.length : ℤ)
      let r := MatrixToDQ ops transformation.transpose
      let j' : Joint :=
        { j with
          parent := parent_id
          inverse_origin_real := r.1
          inverse_origin_dual := r.2.1
          inverse_origin_scale := r.2.2 }
      allocList ops jm children joint_id (joints ++ [j'])
    | none => allocList ops jm children (-1) joints

/-- Child recursion of `alloc_joints`. -/
def allocList (ops : MathLibOps) (jm : JMap) :
    List AiNode → ℤ → List Joint → List Joint
  | [], _, joints => joints
  | c :: rest, pid, joints =>
    allocList ops jm rest pid (allocNode ops jm c pid joints)

end

/-- `MeshConverter::BuildJoints` (MeshConverter.cpp:571-660): run the three
walks and return the final joint array. -/
def BuildJoints (ops : MathLibOps) (scene : AiSceneSkel) : List Joint :=
  let jm1 := buildBindMatrixNode ops scene scene.rootNode Mat4.id4 []
  let jm2 := (markNode scene.rootNode jm1).2
  allocNode ops jm2 scene.rootNode (-1) []

theorem Quat.normSq_neg (q : Quat) : q.neg.normSq = q.normSq := by
  unfold Quat.neg Quat.normSq
  ring

theorem MatrixToDQ_normSq (ops : MathLibOps)
    (hdec : ∀ m : Mat4, ((ops.decompose m).2.1).normSq = 1) (mat : Mat4) :
    ((MatrixToDQ ops mat).1).normSq = 1 := by
  unfold MatrixToDQ
  simp only
  by_cases hc : (if det3 mat < 0 then (-1 : ℚ) else 1) *
      SignBit ((ops.decompose (if det3 mat < 0 then flipRow2 mat else mat)).2.1).w < 0
  · rw [if_pos hc]
    rw [Quat.normSq_neg]
    exact hdec _
  · rw [if_neg hc]
    exact hdec _

theorem MatrixToDQ_sign (ops : MathLibOps) (mat : Mat4) :
    (0 ≤ det3 mat → 0 ≤ (MatrixToDQ ops mat).1.w) ∧
    (det3 mat < 0 → (MatrixToDQ ops mat).1.w ≤ 0) := by
  unfold MatrixToDQ
  simp only
  by_cases hdet : det3 mat < 0
  · rw [if_pos hdet, if_pos hdet]
    refine ⟨fun h0 => absurd hdet (not_lt.mpr h0), fun _ => ?_⟩
    by_cases hw : ((ops.decompose (flipRow2 mat)).2.1).w < 0
    · rw [if_neg (by simp [SignBit, hw])]
      exact le_of_lt hw
    · rw [if_pos (by simp [SignBit, hw])]
      show -((ops.decompose (flipRow2 mat)).2.1).w ≤ 0
      push_neg at hw
      linarith
  · rw [if_neg hdet, if_neg hdet]
    refine ⟨fun _ => ?_, fun hlt => absurd hlt hdet⟩
    by_cases hw : ((ops.decompose mat).2.1).w < 0
    · rw [if_pos (by simp [SignBit, hw])]
      show (0 : ℚ) ≤ -((ops.decompose mat).2.1).w
      linarith
    · rw [if_neg (by simp [SignBit, hw])]
      push_neg at hw
      exact hw

/-- Every joint value held in the `joint_nodes` map has a unit `bind_real`. -/
def AllUnit (jm : JMap) : Prop := ∀ e ∈ jm, (e.2.bind_real).normSq = 1

theorem AllUnit_store (k : String) {v : Joint} (hv : v.bind_real.normSq = 1) :
    ∀ {jm : JMap}, AllUnit jm → AllUnit (JMap.store jm k v) := by
  intro jm
  induction jm with
  | nil =>
    intro h e he
    rw [JMap.store] at he
    rcases List.mem_singleton.mp he with rfl
    exact hv
  | cons p rest ih =>
    intro h e he
    rw [JMap.store] at he
    by_cases hk : k = p.1
    · rw [if_pos hk] at he
      rcases List.mem_cons.mp he with rfl | hmem
      · exact hv
      · exact h _ (List.mem_cons_of_mem p hmem)
    · rw [if_neg hk] at he
      rcases List.mem_cons.mp he with rfl | hmem
      · exact h _ (List.mem_cons_self p rest)
      · exact ih (fun e' he' => h e' (List.mem_cons_of_mem p he')) e hmem

theorem AllUnit_find {k : String} {j : Joint} :
    ∀ {jm : JMap}, AllUnit jm → JMap.find? jm k = some j →
      j.bind_real.normSq = 1 := by
  intro jm
  induction jm with
  | nil =>
    intro h hf
    exact absurd hf (by rw [JMap.find?]; exact Option.noConfusion)
  | cons p rest ih =>
    intro h hf
    rw [JMap.find?] at hf
    by_cases hk : p.1 = k
    · rw [if_pos hk] at hf
      cases hf
      exact h p (List.mem_cons_self p rest)
    · rw [if_neg hk] at hf
      exact ih (fun e he => h e (List.mem_cons_of_mem p he)) hf

theorem boneJoint_normSq (ops : MathLibOps)
    (hdec : ∀ m : Mat4, ((ops.decompose m).2.1).normSq = 1) (mesh_trans : Mat4)
    (bone : AiBone) : (boneJoint ops mesh_trans bone).bind_real.normSq = 1 := by
  simp only [boneJoint]
  exact MatrixToDQ_normSq ops hdec _

theorem AllUnit_addMeshBones (ops : MathLibOps)
    (hdec : ∀ m : Mat4, ((ops.decompose m).2.1).normSq = 1) (mesh_trans : Mat4) :
    ∀ (bones : List AiBone) (jm : JMap), AllUnit jm →
      AllUnit (bones.foldl
        (fun acc bone => JMap.store acc bone.name (boneJoint ops mesh_trans bone)) jm) := by
  intro bones
  induction bones with
  | nil => intro jm h; exact h
  | cons bone rest ih =>
    intro jm h
    rw [List.foldl_cons]
    exact ih _ (AllUnit_store bone.name (boneJoint_normSq ops hdec mesh_trans bone) h)

theorem AllUnit_foldl_addMeshBones (ops : MathLibOps) (scene : AiSceneSkel)
    (hdec : ∀ m : Mat4, ((ops.decompose m).2.1).normSq = 1) (mesh_trans : Mat4) :
    ∀ (ms : List ℕ) (jm : JMap), AllUnit jm →
      AllUnit (ms.foldl (addMeshBones ops scene mesh_trans) jm) := by
  intro ms
  induction ms with
  | nil => intro jm h; exact h
  | cons mi rest ih =>
    intro jm h
    rw [List.foldl_cons]
    exact ih _ (AllUnit_addMeshBones ops hdec mesh_trans _ jm h)

mutual

theorem buildBindMatrixNode_unit (ops : MathLibOps) (scene : AiSceneSkel)
    (hdec : ∀ m : Mat4, ((ops.decompose m).2.1).normSq = 1) :
    ∀ (node : AiNode) (mat : Mat4) (jm : JMap), AllUnit jm →
      AllUnit (buildBindMatrixNode ops scene node mat jm)
  | .mk name t ms cs => by
    intro mat jm hjm
    rw [buildBindMatrixNode]
    exact buildBindMatrixList_unit ops scene hdec cs _ _
      (AllUnit_foldl_addMeshBones ops scene hdec _ ms jm hjm)

theorem buildBindMatrixList_unit (ops : MathLibOps) (scene : AiSceneSkel)
    (hdec : ∀ m : Mat4, ((ops.decompose m).2.1).normSq = 1) :
    ∀ (nodes : List AiNode) (mat : Mat4) (jm : JMap), AllUnit jm →
      AllUnit (buildBindMatrixList ops scene nodes mat jm)
  | [] => by
    intro mat jm hjm
    rw [buildBindMatrixList]
    exact hjm
  | c :: rest => by
    intro mat jm hjm
    rw [buildBindMatrixList]
    exact buildBindMatrixList_unit ops scene hdec rest mat _
      (buildBindMatrixNode_unit ops scene hdec c mat jm hjm)

end

mutual

theorem markNode_unit :
    ∀ (node : AiNode) (jm : JMap), AllUnit jm → AllUnit (markNode node jm).2
  | .mk name t ms cs => by
    intro jm hjm
    rw [markNode]
    by_cases hc : ((JMap.find? jm name).isSome || (markList cs jm).1) = true ∧
        ¬ (JMap.find? jm name).isSome = true
    · rw [if_pos hc]
      exact AllUnit_store name (by
        show (Quat.identity).normSq = 1
        unfold Quat.identity Quat.normSq
        norm_num) (markList_unit cs jm hjm)
    · rw [if_neg hc]
      exact markList_unit cs jm hjm

theorem markList_unit :
    ∀ (nodes : List AiNode) (jm : JMap), AllUnit jm → AllUnit (markList nodes jm).2
  | [] => by
    intro jm hjm
    rw [markList]
    exact hjm
  | c :: rest => by
    intro jm hjm
    rw [markList]
    exact markList_unit rest _ (markNode_unit c jm hjm)

end

mutual

theorem allocNode_unit (ops : MathLibOps) (jm : JMap) (hjm : AllUnit jm) :
    ∀ (node : AiNode) (pid : ℤ) (joints : List Joint),
      (∀ j ∈ joints, j.bind_real.normSq = 1) →
      ∀ j ∈ allocNode ops jm node pid joints, j.bind_real.normSq = 1
  | .mk name t ms cs => by
    intro pid joints hj
    rw [allocNode]
    cases hf : JMap.find? jm name with
    | some j0 =>
      apply allocList_unit ops jm hjm cs _ _
      intro j hjmem
      rcases List.mem_append.mp hjmem with hmem | hsing
      · exact hj j hmem
      · rcases List.mem_singleton.mp hsing with rfl
        show j0.bind_real.normSq = 1
        exact AllUnit_find hjm hf
    | none =>
      exact allocList_unit ops jm hjm cs _ joints hj

theorem allocList_unit (ops : MathLibOps) (jm : JMap) (hjm : AllUnit jm) :
    ∀ (nodes : List AiNode) (pid : ℤ) (joints : List Joint),
      (∀ j ∈ joints, j.bind_real.normSq = 1) →
      ∀ j ∈ allocList ops jm nodes pid joints, j.bind_real.normSq = 1
  | [] => by
    intro pid joints hj
    rw [allocList]
    exact hj
  | c :: rest => by
    intro pid joints hj
    rw [allocList]
    exact allocList_unit ops jm hjm rest pid _ (allocNode_unit ops jm hjm c pid joints hj)

end

/-- C2 amended: whenever the decomposition routine returns unit rotation
quaternions (its contract per the spec), every joint stored by `BuildJoints` —
bone joints and synthesized helpers alike — has a unit-norm `bind_real`; and
`MatrixToDQ` gives that quaternion a non-negative scalar part exactly for
orientation-preserving bind matrices: for a reflection (negative upper-3x3
triple product) the scalar part is forced non-positive, because the sign
policy `flip * SignBit(w) < 0` matches the hemisphere to the reflection
parity. -/
theorem BuildJoints_bind_real_spec (ops : MathLibOps)
    (hdec : ∀ m : Mat4, ((ops.decompose m).2.1).normSq = 1) :
    (∀ (scene : AiSceneSkel), ∀ j ∈ BuildJoints ops scene, j.bind_real.normSq = 1) ∧
    (∀ mat : Mat4,
      (0 ≤ det3 mat → 0 ≤ (MatrixToDQ ops mat).1.w) ∧
      (det3 mat < 0 → (MatrixToDQ ops mat).1.w ≤ 0)) := by
  constructor
  · intro scene j hj
    unfold BuildJoints at hj
    refine allocNode_unit ops _ ?_ scene.rootNode (-1) []
      (fun j' hj' => absurd hj' (List.not_mem_nil j')) j hj
    exact markNode_unit scene.rootNode _
      (buildBindMatrixNode_unit ops scene hdec scene.rootNode Mat4.id4 []
        (fun e he => absurd he (List.not_mem_nil e)))
  · intro mat
    exact MatrixToDQ_sign ops mat

theorem constOps_decompose_unit :
    ∀ m : Mat4, ((constOps.decompose m).2.1).normSq = 1 := by
  intro m
  show (Quat.identity).normSq = 1
  unfold Quat.identity Quat.normSq
  norm_num

/-- Scene for the C2 witness: a single boneless node. -/
def sceneW : AiSceneSkel := { meshes := [], rootNode := .mk "n" Mat4.id4 [] [] }

/-- Witness for the amended C2 at a concrete scene and decomposition. -/
theorem BuildJoints_bind_real_spec_witness :
    (∀ m : Mat4, ((constOps.decompose m).2.1).normSq = 1) ∧
    (∀ j ∈ BuildJoints constOps sceneW, j.bind_real.normSq = 1) :=
  ⟨constOps_decompose_unit,
    (BuildJoints_bind_real_spec constOps constOps_decompose_unit).1 sceneW⟩

/-- A bone-offset matrix with a reflection: diag(1, 1, -1, 1). -/
def reflMat : Mat4 := fun i j => if i = j then (if i.val = 2 then -1 else 1) else 0

/-- Scene for the C2 counterexample: the root node carries one mesh with one
bone named like the root, whose offset matrix is the reflection `reflMat`. -/
def sceneRefl : AiSceneSkel :=
  { meshes := [⟨[{ name := "root", offsetMatrix := reflMat }]⟩],
    rootNode := .mk "root" Mat4.id4 [0] [] }

/-- C2 counterexample: on a reflecting bone-offset matrix (negative
upper-3x3 determinant) whose decomposition yields the unit quaternion
(0,0,0,1), `BuildJoints` stores `bind_real = (0,0,0,-1)`: unit norm, but a
strictly negative scalar part, contradicting the claim that `w` is
non-negative for every input including reflections. -/
theorem BuildJoints_reflection_negative_w :
    (∀ m : Mat4, ((constOps.decompose m).2.1).normSq = 1) ∧
    (BuildJoints constOps sceneRefl).map (fun j => j.bind_real.w) = [-1] := by
  refine ⟨constOps_decompose_unit, ?_⟩
  have hdet : det3 (Mat4.mul (Mat4.transpose reflMat)
      (Mat4.mul (Mat4.transpose Mat4.id4) Mat4.id4)) = -1 := by
    simp +decide only [det3, Mat4.mul, Mat4.transpose, Mat4.id4, reflMat]
    norm_num
  have hdet2 : det3 (Mat4.transpose Mat4.id4) = 1 := by
    simp +decide only [det3, Mat4.transpose, Mat4.id4]
    norm_num
  simp +decide only [BuildJoints, sceneRefl, buildBindMatrixNode,
    buildBindMatrixList, addMeshBones, boneJoint, JMap.store, markNode,
    markList, JMap.find?, allocNode, allocList, List.foldl, List.getD,
    List.map, constOps, MatrixToDQ, hdet, hdet2]
  norm_num [SignBit, Quat.neg, Quat.identity]
